import Mathlib

/-!
# Verification of the InfoBlox MCP server repository

Shallow embedding, in Lean 4, of the parts of the repository that the
frozen claims are about:

* `validators.py` — the `InputValidator` class (object-type check, filter
  value check, file-path containment check);
* `infoblox-mcp-server.py` — tool-name generation (`ToolGenerator`),
  tool-name parsing and dispatch (`call_tool`), the WAPI client's
  `request` error handling, and `SchemaManager`'s schema hashing;
* `config.py` — `Settings` construction from environment variables and the
  `get_settings` singleton.

Python strings are modelled as Lean `String` (a Python `str` is a sequence
of code points, as is `String.data`), Python JSON-ish values as the
inductive `Value` below, raised exceptions as `Except`.  Python `float`
values are carried as `Rat`: no claim depends on floating-point
arithmetic, only on values being passed through unchanged.
-/

namespace InfoBlox

/-! ## Python string primitives

Each helper is a direct model of the Python `str` method named in its
doc comment, at the level of code-point lists. -/

/-- Python `str.split(sep)` for a one-character separator: split at every
occurrence, keeping empty pieces. -/
def pySplit (sep : Char) : List Char → List (List Char)
  | [] => [[]]
  | c :: rest =>
    let r := pySplit sep rest
    if c = sep then [] :: r
    else
      match r with
      | [] => [[c]]
      | piece :: pieces => (c :: piece) :: pieces

/-- Python `sep.flatten(parts)`. -/
def pyJoin (sep : String) : List String → String
  | [] => ""
  | [a] => a
  | a :: rest => a ++ sep ++ pyJoin sep rest

/-- Python `str.replace(old, new)` for one-character `old`/`new`. -/
def pyReplaceChar (a b : Char) (s : String) : String :=
  ⟨s.data.map fun c => if c = a then b else c⟩

/-- Python `str.lstrip(c)` for a one-character strip set. -/
def pyLstrip (strip : Char) (s : String) : String :=
  ⟨s.data.dropWhile fun c => c = strip⟩

/-- Python `str.upper()` (ASCII; the repo only upper-cases ASCII config values). -/
def pyUpper (s : String) : String := ⟨s.data.map Char.toUpper⟩

/-- Python `str.lower()` (ASCII). -/
def pyLower (s : String) : String := ⟨s.data.map Char.toLower⟩

/-- The whitespace characters stripped by Python `str.strip()` (ASCII range). -/
def pySpaceChar (c : Char) : Bool :=
  c == ' ' || c == '\t' || c == '\n' || c == '\r' || c == '\x0b' || c == '\x0c'

/-- Python `str.strip()`. -/
def pyStrip (s : String) : String :=
  ⟨((s.data.dropWhile pySpaceChar).reverse.dropWhile pySpaceChar).reverse⟩

/-- Python `str.startswith(pre)`. -/
def pyStartsWith (s pre : String) : Bool := pre.data.isPrefixOf s.data

/-! ## JSON-ish Python values -/

/-- A Python value as it appears in parsed-JSON positions (tool arguments,
schemas, request parameters).  `tup` models Python tuples (they are
distinct from lists in `validate_filter_value`); `other` stands for a
value of any unsupported Python type, tagged with its type name. -/
inductive Value where
  | str (s : String)
  | int (n : Int)
  | float (q : Rat)
  | bool (b : Bool)
  | null
  | list (items : List Value)
  | tup (items : List Value)
  | dict (entries : List (String × Value))
  | other (typeName : String)
  deriving Repr

/-- Python truthiness of a `Value` (`bool(v)`). -/
def Value.truthy : Value → Bool
  | .str s => !s.isEmpty
  | .int n => n != 0
  | .float q => q != 0
  | .bool b => b
  | .null => false
  | .list items => !items.isEmpty
  | .tup items => !items.isEmpty
  | .dict entries => !entries.isEmpty
  | .other _ => true

/-- Python `d.get(k, default)` on a dict modelled as an association list. -/
def getArg (args : List (String × Value)) (k : String) (d : Value) : Value :=
  match args.lookup k with
  | some v => v
  | none => d

/-- Python `d[k] = v` on a dict: replace the value in place if the key is
present, otherwise append the new pair. -/
def setKey (l : List (String × Value)) (k : String) (v : Value) :
    List (String × Value) :=
  match l with
  | [] => [(k, v)]
  | (k', v') :: rest =>
    if k' = k then (k', v) :: rest else (k', v') :: setKey rest k v

/-- Python `d.update(new)`: fold `setKey` over the new entries. -/
def dictUpdate (l new : List (String × Value)) : List (String × Value) :=
  new.foldl (fun acc kv => setKey acc kv.1 kv.2) l

/-! ## `validators.py` — `InputValidator` -/

/-- The character class of `OBJECT_TYPE_PATTERN = r'^[a-z0-9_:]+$'`. -/
def objectTypeChar (c : Char) : Bool :=
  (decide ('a' ≤ c) && decide (c ≤ 'z')) || (decide ('0' ≤ c) && decide (c ≤ '9')) ||
    c == '_' || c == ':'

/-- Model of `InputValidator.validate_object_type` (validators.py:49-84): reject the
empty string, strings longer than 100 characters, and strings with a
character outside `[a-z0-9_:]`; otherwise return the input unchanged.
`Except.error` carries the `ValidationError` message. -/
def validateObjectType (object_type : String) : Except String String :=
  if object_type.isEmpty then
    .error "Object type cannot be empty"
  else if object_type.length > 100 then
    .error "Object type too long"
  else if ¬ object_type.data.all objectTypeChar then
    .error ("Invalid object type '" ++ object_type ++
      "'. Must contain only lowercase letters, numbers, underscore, and colon.")
  else
    .ok object_type

/-- The shell metacharacter class of the first forbidden pattern,
`r'[;\|\&\$\(\)\`]'`. -/
def shellMetaChar (c : Char) : Bool :=
  c == ';' || c == '|' || c == '&' || c == '$' || c == '(' || c == ')' || c == Char.ofNat 96

/-- Literal substring search: `re.search` for a pattern with no
metacharacters succeeds iff the pattern occurs as a contiguous infix. -/
def subSearch (pat : List Char) : List Char → Bool
  | [] => pat.isEmpty
  | s@(_ :: rest) => pat.isPrefixOf s || subSearch pat rest

/-- Case-insensitive literal search (`re.search(pat, s, re.IGNORECASE)` for
an already-lowercase pattern): search the lower-cased subject. -/
def subSearchCI (pat : String) (s : String) : Bool :=
  subSearch pat.data (s.data.map Char.toLower)

/-- Class `\w` of the forbidden pattern `r'on\w+\s*='` (word characters). -/
def pyWordChar (c : Char) : Bool := c.isAlphanum || c == '_'

/-- Scanner for the regex tail `\s*=`: zero or more whitespace characters
followed by `=`. -/
def scanSpacesEq : List Char → Bool
  | [] => false
  | c :: rest => if c = '=' then true else pySpaceChar c && scanSpacesEq rest

/-- Scanner for the regex tail `\w*\s*=`. -/
def scanWordsSpacesEq : List Char → Bool
  | [] => false
  | c :: rest =>
    if c = '=' then true
    else if pyWordChar c then scanWordsSpacesEq rest
    else pySpaceChar c && scanSpacesEq rest

/-- Anchored match of the forbidden pattern `r'on\w+\s*='` under
`re.IGNORECASE` at the head of the list. -/
def matchOnAt : List Char → Bool
  | o :: n :: c :: rest =>
    o.toLower == 'o' && n.toLower == 'n' && pyWordChar c && scanWordsSpacesEq rest
  | _ => false

/-- Unanchored search for `r'on\w+\s*='` (`re.search` tries every start
position). -/
def searchOnHandler : List Char → Bool
  | [] => false
  | s@(_ :: rest) => matchOnAt s || searchOnHandler rest

/-- Model of `FORBIDDEN_PATTERNS` (validators.py:41-47), as checked by the loop in
`validate_filter_value`: each of the five regexes is searched with
`re.IGNORECASE`; the value is rejected as soon as one matches. -/
def hasForbiddenPattern (s : String) : Bool :=
  s.data.any shellMetaChar ||
  subSearchCI "../.." s ||
  subSearchCI "<script" s ||
  subSearchCI "javascript:" s ||
  searchOnHandler s.data

mutual

/-- Model of `InputValidator.validate_filter_value` (validators.py:126-178).
Strings are checked against the forbidden patterns and then the length
bound; `int`/`float`/`bool`/`None` pass through; lists and tuples are
rebuilt from recursively validated items; dict values are recursively
validated; every other type raises `ValidationError`. -/
def validateFilterValue : Value → Except String Value
  | .str s =>
    if hasForbiddenPattern s then
      .error "Invalid characters detected in filter value. Potential injection attempt blocked."
    else if s.length > 1000 then
      .error ("Filter value too long: " ++ toString s.length ++ " chars (max 1000)")
    else
      .ok (.str s)
  | .int n => .ok (.int n)
  | .float q => .ok (.float q)
  | .bool b => .ok (.bool b)
  | .null => .ok .null
  | .list items =>
    match validateFilterList items with
    | .error e => .error e
    | .ok items' => .ok (.list items')
  | .tup items =>
    match validateFilterList items with
    | .error e => .error e
    | .ok items' => .ok (.tup items')
  | .dict entries =>
    match validateFilterEntries entries with
    | .error e => .error e
    | .ok entries' => .ok (.dict entries')
  | .other typeName =>
    .error ("Unsupported filter value type: " ++ typeName)

/-- Item-wise validation of a list/tuple (the generator expression in
validators.py:165); the first failure propagates. -/
def validateFilterList : List Value → Except String (List Value)
  | [] => .ok []
  | v :: rest =>
    match validateFilterValue v with
    | .error e => .error e
    | .ok v' =>
      match validateFilterList rest with
      | .error e => .error e
      | .ok rest' => .ok (v' :: rest')

/-- Value-wise validation of a dict (the comprehension in
validators.py:169); keys are kept as-is. -/
def validateFilterEntries :
    List (String × Value) → Except String (List (String × Value))
  | [] => .ok []
  | (k, v) :: rest =>
    match validateFilterValue v with
    | .error e => .error e
    | .ok v' =>
      match validateFilterEntries rest with
      | .error e => .error e
      | .ok rest' => .ok ((k, v') :: rest')

end

/-! ## `infoblox-mcp-server.py` — Python exceptions and the WAPI client -/

/-- A raised Python exception, as distinguished by the `except` clauses of
`call_tool` and `InfoBloxClient.request`: `ValidationError`,
`TypeError`, `AttributeError`, `requests.exceptions.ConnectionError`,
`requests.exceptions.Timeout`. -/
inductive PyErr where
  | validation (msg : String)
  | typeErr (msg : String)
  | attrErr (msg : String)
  | connErr (msg : String)
  | timeoutErr (msg : String)
  deriving Repr, DecidableEq

/-- Python `str(e)` on an exception. -/
def pyErrMsg : PyErr → String
  | .validation m => m
  | .typeErr m => m
  | .attrErr m => m
  | .connErr m => m
  | .timeoutErr m => m

/-- An HTTP request as issued by `InfoBloxClient.request`
(infoblox-mcp-server.py:80-85): the URL is
`BASE_URL + "/" + path.lstrip('/')`; `path` here is the part after
`BASE_URL`, `params` the query parameters, `body` the JSON body. -/
structure HttpRequest where
  method : String
  path : String
  params : List (String × Value)
  body : Option Value
  deriving Repr

/-- The outcome of one HTTP exchange, chosen by the environment (the
InfoBlox appliance and the network): a JSON response, an empty body, an
HTTP error status, a connection error, a timeout, or any other
exception raised while performing the request. -/
inductive NetOutcome where
  | success (v : Value)
  | empty
  | httpError (status : Int) (msg : String)
  | connError (msg : String)
  | timeoutExc (msg : String)
  | otherExc (msg : String)
  deriving Repr

/-- Model of `InfoBloxClient.request` (infoblox-mcp-server.py:80-107).
A JSON response is returned as-is; an empty body becomes a success
dict; an `HTTPError` is converted to an error dict with the status
code; any other unexpected exception is converted to an error dict;
`ConnectionError` and `Timeout` are re-raised (the `tenacity` retry
decorator retries them and, with `reraise=True`, finally re-raises the
exception itself). -/
def requestModel (net : HttpRequest → NetOutcome) (req : HttpRequest) :
    Except PyErr Value :=
  match net req with
  | .success v => .ok v
  | .empty => .ok (.dict [("success", .bool true), ("message", .str "Operation completed")])
  | .httpError status msg =>
    .ok (.dict [("error", .str msg), ("status_code", .int status)])
  | .connError msg => .error (.connErr msg)
  | .timeoutExc msg => .error (.timeoutErr msg)
  | .otherExc msg => .ok (.dict [("error", .str msg)])

/-- One call into `InfoBloxClient.request` through `get`/`post`/`put`/
`delete`.  The `path` argument is a dynamic value (`call_tool` passes
`arguments.get('ref')` directly): if it is not a string,
`path.lstrip('/')` raises `AttributeError` before any request is
issued.  Returns the result together with the list of HTTP requests
actually put on the wire. -/
def clientCall (net : HttpRequest → NetOutcome) (method : String)
    (path : Value) (params : List (String × Value)) (body : Option Value) :
    Except PyErr Value × List HttpRequest :=
  match path with
  | .str p =>
    let req : HttpRequest := ⟨method, pyLstrip '/' p, params, body⟩
    (requestModel net req, [req])
  | _ => (.error (.attrErr "object has no attribute lstrip"), [])

/-! ## `infoblox-mcp-server.py` — `ToolGenerator` -/

/-- An MCP tool descriptor as constructed by `_generate_crud_tools`:
`Tool(name=..., description=..., inputSchema=...)`. -/
structure Tool where
  name : String
  description : String
  inputSchema : Value
  deriving Repr

/-- Python iteration `for x in v` over a dynamic value: lists and tuples
yield their items, strings their characters, dicts their keys; other
types raise `TypeError`. -/
def pyIter : Value → Except PyErr (List Value)
  | .list items => .ok items
  | .tup items => .ok items
  | .str s => .ok (s.data.map fun c => .str ⟨[c]⟩)
  | .dict entries => .ok (entries.map fun kv => .str kv.1)
  | _ => .error (.typeErr "object is not iterable")

/-- Python `sep.flatten(seq)` over dynamic values: every element must be a
string, otherwise `TypeError` is raised. -/
def pyJoinValues (sep : String) : List Value → Except PyErr String
  | [] => .ok ""
  | [.str a] => .ok a
  | .str a :: v :: rest => do
    let tail ← pyJoinValues sep (v :: rest)
    .ok (a ++ sep ++ tail)
  | _ => .error (.typeErr "sequence item: expected str instance")

/-- Model of `ToolGenerator._extract_searchable_fields`
(infoblox-mcp-server.py:374-385): collect `field['name']` for every
dict element with a truthy name (both the `searchable_by` branch and
the `elif name` branch append the name). -/
def extractSearchableFields (fields : List Value) : List Value :=
  fields.foldr
    (fun field acc =>
      match field with
      | .dict d =>
        let name := getArg d "name" (.str "")
        if name.truthy then name :: acc else acc
      | _ => acc)
    []

/-- Clean object type name for tool naming (infoblox-mcp-server.py:245):
`obj_type.replace(':', '_').replace('-', '_')`. -/
def cleanName (obj_type : String) : String :=
  pyReplaceChar '-' '_' (pyReplaceChar ':' '_' obj_type)

/-- Tool names are the f-strings `f"infoblox_{op}_{clean_name}"` of
`_generate_crud_tools`. -/
def mkToolName (op clean_name : String) : String :=
  "infoblox_" ++ op ++ "_" ++ clean_name

/-- The six `Tool` descriptors appended by `_generate_crud_tools`
(infoblox-mcp-server.py:239-372) for one object type, with names,
descriptions and input schemas transcribed from the source;
`common_fields` is the already-joined field list interpolated into the
create tool's description. -/
def crudToolList (obj_type clean_name common_fields : String) : List Tool :=
    [ { name := mkToolName "list" clean_name
        description := "List " ++ obj_type ++ " objects from InfoBlox. Returns a list of "
          ++ obj_type ++ " records with their references and basic fields."
        inputSchema := .dict
          [ ("type", .str "object"),
            ("properties", .dict
              [ ("max_results", .dict
                  [ ("type", .str "integer"),
                    ("description", .str "Maximum number of results to return (default: 100)"),
                    ("default", .int 100) ]),
                ("return_fields", .dict
                  [ ("type", .str "string"),
                    ("description", .str "Comma-separated list of fields to return (optional)") ]),
                ("search_fields", .dict
                  [ ("type", .str "object"),
                    ("description", .str "Field-value pairs for filtering results") ]) ]) ] },
      { name := mkToolName "get" clean_name
        description := "Get a specific " ++ obj_type
          ++ " object by reference. Returns detailed information about a single "
          ++ obj_type ++ " record."
        inputSchema := .dict
          [ ("type", .str "object"),
            ("properties", .dict
              [ ("ref", .dict
                  [ ("type", .str "string"),
                    ("description", .str ("The _ref of the " ++ obj_type ++ " object to retrieve")) ]),
                ("return_fields", .dict
                  [ ("type", .str "string"),
                    ("description", .str "Comma-separated list of fields to return (optional)") ]) ]),
            ("required", .list [.str "ref"]) ] },
      { name := mkToolName "create" clean_name
        description := "Create a new " ++ obj_type
          ++ " object in InfoBlox. Returns the reference of the created object."
        inputSchema := .dict
          [ ("type", .str "object"),
            ("properties", .dict
              [ ("data", .dict
                  [ ("type", .str "object"),
                    ("description", .str ("Object data for creating " ++ obj_type
                      ++ ". Common fields: " ++ common_fields)) ]) ]),
            ("required", .list [.str "data"]) ] },
      { name := mkToolName "update" clean_name
        description := "Update an existing " ++ obj_type
          ++ " object. Requires the object reference (_ref)."
        inputSchema := .dict
          [ ("type", .str "object"),
            ("properties", .dict
              [ ("ref", .dict
                  [ ("type", .str "string"),
                    ("description", .str ("The _ref of the " ++ obj_type ++ " object to update")) ]),
                ("data", .dict
                  [ ("type", .str "object"),
                    ("description", .str "Fields to update") ]) ]),
            ("required", .list [.str "ref", .str "data"]) ] },
      { name := mkToolName "delete" clean_name
        description := "Delete a " ++ obj_type
          ++ " object by reference. This operation cannot be undone."
        inputSchema := .dict
          [ ("type", .str "object"),
            ("properties", .dict
              [ ("ref", .dict
                  [ ("type", .str "string"),
                    ("description", .str ("The _ref of the " ++ obj_type ++ " object to delete")) ]) ]),
            ("required", .list [.str "ref"]) ] },
      { name := mkToolName "search" clean_name
        description := "Advanced search for " ++ obj_type
          ++ " objects with filters and pagination. Returns matching records."
        inputSchema := .dict
          [ ("type", .str "object"),
            ("properties", .dict
              [ ("filters", .dict
                  [ ("type", .str "object"),
                    ("description", .str "Search filters as field-value pairs") ]),
                ("max_results", .dict
                  [ ("type", .str "integer"),
                    ("description", .str "Maximum results (default: 100)"),
                    ("default", .int 100) ]),
                ("return_fields", .dict
                  [ ("type", .str "string"),
                    ("description", .str "Fields to return (comma-separated)") ]),
                ("paging", .dict
                  [ ("type", .str "integer"),
                    ("description", .str "Enable paging with page size") ]) ]) ] } ]

/-- Model of `ToolGenerator._generate_crud_tools`
(infoblox-mcp-server.py:239-372), sequencing the steps that can raise:
reading `schema.get('fields', [])` raises `AttributeError` on a
non-dict schema, iterating a non-iterable `fields` raises `TypeError`,
and joining non-string field names for the create-tool description
raises `TypeError`; otherwise the six descriptors of `crudToolList`
are produced. -/
def genCrudTools (obj_type : String) (schema : Value) :
    Except PyErr (List Tool) :=
  match schema with
  | .dict d =>
    match pyIter (getArg d "fields" (.list [])) with
    | .error e => .error e
    | .ok fields =>
      match pyJoinValues ", " ((extractSearchableFields fields).take 10) with
      | .error e => .error e
      | .ok common_fields => .ok (crudToolList obj_type (cleanName obj_type) common_fields)
  | _ => .error (.attrErr "object has no attribute get")

/-- Model of `ToolGenerator.generate_tools` (infoblox-mcp-server.py:228-237):
concatenate the CRUD tools of every object type in the schemas dict. -/
def generateTools : List (String × Value) → Except PyErr (List Tool)
  | [] => .ok []
  | (obj_type, schema) :: rest =>
    match genCrudTools obj_type schema with
    | .error e => .error e
    | .ok ts =>
      match generateTools rest with
      | .error e => .error e
      | .ok rest' => .ok (ts ++ rest')

/-! ## `infoblox-mcp-server.py` — `call_tool` -/

/-- Tool-name parsing in `call_tool` (infoblox-mcp-server.py:518-525):
split on `'_'`, require at least three parts with head `infoblox`;
the operation is part 1 and the object type is
`'_'.flatten(parts[2:]).replace('_', ':')`. -/
def parseToolName (name : String) : Option (String × String) :=
  let parts := pySplit '_' name.data
  if parts.length < 3 ∨ parts.head? ≠ some "infoblox".data then none
  else
    let operation : String := ⟨(parts.get? 1).getD []⟩
    let object_type :=
      pyReplaceChar '_' ':' (pyJoin "_" ((parts.drop 2).map fun l => (⟨l⟩ : String)))
    some (operation, object_type)

/-- The error payload `{"error": msg}` returned by the failure paths of
`call_tool`. -/
def errPayload (msg : String) : Value := .dict [("error", .str msg)]

/-- The cap in the list branch (infoblox-mcp-server.py:543-545):
`if max_results > 1000: max_results = 1000`.  Comparing a non-number
with `1000` raises `TypeError`; Python `bool` is an `int` whose value
(0 or 1) is never above the cap. -/
def capMaxResults : Value → Except PyErr Value
  | .int n => .ok (if n > 1000 then .int 1000 else .int n)
  | .bool b => .ok (.bool b)
  | .float q => .ok (if q > 1000 then .int 1000 else .float q)
  | _ => .error (.typeErr "not supported between instances of this type and int")

/-- The filter loop of the list branch (infoblox-mcp-server.py:552-559):
validate each `search_fields` value with
`InputValidator.validate_filter_value` and store it under its field
name; the first `ValidationError` aborts. -/
def addValidatedFilters (params : List (String × Value)) :
    List (String × Value) → Except String (List (String × Value))
  | [] => .ok params
  | (field, value) :: rest =>
    match validateFilterValue value with
    | .error e => .error e
    | .ok validated => addValidatedFilters (setKey params field validated) rest

/-- The operation dispatch of `call_tool` (infoblox-mcp-server.py:534-602),
entered after the tool name and the parsed object type have been
validated.  Returns the result payload (or the exception about to
propagate to the outer handler) and the list of HTTP requests issued. -/
def dispatch (net : HttpRequest → NetOutcome) (operation object_type : String)
    (arguments : List (String × Value)) :
    Except PyErr Value × List HttpRequest :=
  if operation = "list" then
    let max_results := getArg arguments "max_results" (.int 100)
    let return_fields := getArg arguments "return_fields" (.str "")
    let search_fields := getArg arguments "search_fields" (.dict [])
    match capMaxResults max_results with
    | .error e => (.error e, [])
    | .ok mr =>
      let params := [("_max_results", mr)]
      let params := if return_fields.truthy then setKey params "_return_fields" return_fields else params
      match search_fields with
      | .dict kvs =>
        match addValidatedFilters params kvs with
        | .error e => (.ok (errPayload ("Invalid filter value: " ++ e)), [])
        | .ok params' => clientCall net "GET" (.str object_type) params' none
      | _ => (.error (.attrErr "object has no attribute items"), [])
  else if operation = "get" then
    let ref := getArg arguments "ref" .null
    let return_fields := getArg arguments "return_fields" (.str "")
    let params := if return_fields.truthy then setKey [] "_return_fields" return_fields else []
    clientCall net "GET" ref params none
  else if operation = "create" then
    let data := getArg arguments "data" (.dict [])
    clientCall net "POST" (.str object_type) [] (some data)
  else if operation = "update" then
    let ref := getArg arguments "ref" .null
    let data := getArg arguments "data" (.dict [])
    clientCall net "PUT" ref [] (some data)
  else if operation = "delete" then
    let ref := getArg arguments "ref" .null
    clientCall net "DELETE" ref [] none
  else if operation = "search" then
    let filters := getArg arguments "filters" (.dict [])
    let max_results := getArg arguments "max_results" (.int 100)
    let return_fields := getArg arguments "return_fields" (.str "")
    let params := [("_max_results", max_results)]
    let params := if return_fields.truthy then setKey params "_return_fields" return_fields else params
    match filters with
    | .dict kvs => clientCall net "GET" (.str object_type) (dictUpdate params kvs) none
    | _ => (.error (.typeErr "update requires a mapping"), [])
  else
    (.ok (errPayload ("Unknown operation: " ++ operation)), [])

/-- The body of `call_tool` inside its outer `try`
(infoblox-mcp-server.py:506-608): validate the tool name, parse it,
validate the parsed object type, then dispatch.  An `Except.error`
result is an exception reaching the outer handlers. -/
def callToolInner (net : HttpRequest → NetOutcome) (name : String)
    (arguments : List (String × Value)) :
    Except PyErr Value × List HttpRequest :=
  match validateObjectType name with
  | .error e => (.ok (errPayload ("Invalid tool name: " ++ e)), [])
  | .ok _ =>
    match parseToolName name with
    | none => (.ok (errPayload "Invalid tool name format"), [])
    | some (operation, object_type) =>
      match validateObjectType object_type with
      | .error e => (.ok (errPayload ("Invalid object type: " ++ e)), [])
      | .ok validated_object_type => dispatch net operation validated_object_type arguments

/-- One `TextContent(type="text", text=json.dumps(payload, ...))` item;
the `payload` field holds the JSON value serialized into `text`. -/
structure TextContent where
  payload : Value
  deriving Repr

/-- Model of the whole `call_tool` handler (infoblox-mcp-server.py:503-617):
run the body and convert any escaped exception into the
`{"error": ...}` responses of the two outer `except` clauses. -/
def callToolRun (net : HttpRequest → NetOutcome) (name : String)
    (arguments : List (String × Value)) :
    List TextContent × List HttpRequest :=
  match callToolInner net name arguments with
  | (.ok payload, reqs) => ([⟨payload⟩], reqs)
  | (.error (.validation m), reqs) =>
    ([⟨errPayload ("Validation error: " ++ m)⟩], reqs)
  | (.error e, reqs) => ([⟨errPayload (pyErrMsg e)⟩], reqs)

/-! ## `validators.py` — `validate_file_path` -/

/-- Model of `InputValidator.validate_file_path` (validators.py:312-357) for
inputs on which the OS resolution steps are identities: for a path that
is already absolute and normalized (no `~`, `.`, `..` or repeated
separators), `os.path.expanduser` and `os.path.abspath` return it
unchanged, and for such an `allowed_base` likewise.  What remains is
the containment decision of line 352: the plain string prefix test
`abs_path.startswith(allowed_base)`. -/
def validateFilePathResolved (abs_path allowed_base : String) :
    Except String String :=
  if pyStartsWith abs_path allowed_base then .ok abs_path
  else
    .error ("Path '" ++ abs_path ++ "' is outside allowed directory '"
      ++ allowed_base ++ "'")

/-- Modelled from the spec: a resolved absolute path is contained within a
base directory iff it is the base itself or extends the base at a path
separator boundary.  This is the claimed behaviour, to be compared with
the `startswith` test the source actually performs. -/
def inDirSpec (p base : String) : Bool :=
  p == base || pyStartsWith p (base ++ "/")

/-! ## `config.py` — `Settings`, `get_settings` -/

/-- The process environment: `os.getenv` returns `none` for an unset
variable. -/
def Env := String → Option String

/-- Python `os.getenv(k, d)`. -/
def getenvD (env : Env) (k d : String) : String := (env k).getD d

/-- The fields assigned by `Settings._load_settings` (config.py:33-62).
`rag_db_path` is stored before `os.path.expanduser` (the expansion is
an OS lookup of the home directory; no claim depends on it). -/
structure Settings where
  infoblox_host : Option String
  infoblox_user : Option String
  infoblox_password : Option String
  wapi_version : String
  infoblox_verify_ssl : Bool
  infoblox_ca_bundle : Option String
  anthropic_api_key : Option String
  rag_db_path : String
  rag_collection_name : String
  log_level : String
  log_file : String
  enable_security_audit : Bool
  app_name : String
  app_version : String
  deriving Repr, DecidableEq

/-- Model of `Settings._load_settings` (config.py:33-62). -/
def loadSettings (env : Env) : Settings where
  infoblox_host := env "INFOBLOX_HOST"
  infoblox_user := env "INFOBLOX_USER"
  infoblox_password := env "INFOBLOX_PASSWORD"
  wapi_version := getenvD env "WAPI_VERSION" "v2.13.1"
  infoblox_verify_ssl := pyLower (getenvD env "INFOBLOX_VERIFY_SSL" "true") = "true"
  infoblox_ca_bundle := env "INFOBLOX_CA_BUNDLE"
  anthropic_api_key := env "ANTHROPIC_API_KEY"
  rag_db_path := getenvD env "RAG_DB_PATH" "~/.infoblox-rag"
  rag_collection_name := getenvD env "RAG_COLLECTION_NAME" "infoblox_knowledge"
  log_level := pyUpper (getenvD env "LOG_LEVEL" "INFO")
  log_file := getenvD env "LOG_FILE" "ddi-assistant.log"
  enable_security_audit := pyLower (getenvD env "ENABLE_SECURITY_AUDIT" "true") = "true"
  app_name := "DDI Assistant"
  app_version := "1.0.0"

/-- Python falsiness of an optional string (`not self.infoblox_host`):
true for an unset variable and for the empty string. -/
def optFalsy : Option String → Bool
  | none => true
  | some s => s.isEmpty

/-- The error lines accumulated by `Settings._validate_settings`
(config.py:64-81), in source order. -/
def validationErrors (s : Settings) : List String :=
  (if optFalsy s.infoblox_host then ["INFOBLOX_HOST environment variable is required"] else []) ++
  (if optFalsy s.infoblox_user then ["INFOBLOX_USER environment variable is required"] else []) ++
  (if optFalsy s.infoblox_password then ["INFOBLOX_PASSWORD environment variable is required"] else []) ++
  (if optFalsy s.anthropic_api_key then ["ANTHROPIC_API_KEY environment variable is required"] else [])

/-- Seventy equals signs, `"="*70`. -/
def sep70 : String := ⟨List.replicate 70 '='⟩

/-- The `ConfigurationError` message built by `Settings._validate_settings`
(config.py:82-96). -/
def configErrorMessage (errors : List String) : String :=
  "\n" ++ sep70 ++ "\n" ++
  "CONFIGURATION ERROR: Missing required environment variables\n" ++
  sep70 ++ "\n\n" ++
  "The following environment variables must be set:\n\n" ++
  pyJoin "\n" (errors.map fun e => "  ✗ " ++ e) ++ "\n\n" ++
  "Please set these variables and try again:\n\n" ++
  "  export INFOBLOX_HOST=\"your-infoblox-host\"\n" ++
  "  export INFOBLOX_USER=\"your-username\"\n" ++
  "  export INFOBLOX_PASSWORD=\"your-password\"\n" ++
  "  export ANTHROPIC_API_KEY=\"your-api-key\"\n\n" ++
  "For more information, see: README.md\n" ++
  sep70 ++ "\n"

/-- Model of `Settings.__init__` (config.py:28-97): load from the
environment, then raise `ConfigurationError` with the assembled message
when any required variable is missing. -/
def mkSettings (env : Env) : Except String Settings :=
  let s := loadSettings env
  let errors := validationErrors s
  if errors.isEmpty then .ok s else .error (configErrorMessage errors)

/-- Model of `get_settings` (config.py:146-163) acting on the module-level
cell `_settings`: if the cell is filled, return the stored instance; if
not, construct one and fill the cell on success (on a raised
`ConfigurationError` the assignment never happens and the cell stays
empty). -/
def getSettingsM (env : Env) :
    Option Settings → Except String Settings × Option Settings
  | some s => (.ok s, some s)
  | none =>
    match mkSettings env with
    | .ok s => (.ok s, some s)
    | .error e => (.error e, none)

/-! ## `infoblox-mcp-server.py` — `SchemaManager` schema hashing

`get_schema_hash` computes `sha256(json.dumps(schemas, sort_keys=True))`.
Both `json.dumps` (with `ensure_ascii=True` and the default separators
`', '`/`': '`) and SHA-256 are implemented below. -/

/-- Ordering of dict entries used by `json.dumps(..., sort_keys=True)`:
Python's stable sort of the items by key. -/
def sortKV (l : List (String × Value)) : List (String × Value) :=
  List.insertionSort (fun p q => p.1 ≤ q.1) l

/-- Digit `n` (for `n < 16`) as a lowercase hexadecimal character, as
formatted by `'%x'`: `0`-`9` then `a`-`f`. -/
def hexDigitChar (n : Nat) : Char :=
  if n < 10 then Char.ofNat (48 + n) else Char.ofNat (87 + n)

/-- A `\uXXXX` escape with four lowercase hex digits (`'\u%04x'`). -/
def uEsc4 (n : Nat) : List Char :=
  ['\\', 'u', hexDigitChar (n / 4096 % 16), hexDigitChar (n / 256 % 16),
    hexDigitChar (n / 16 % 16), hexDigitChar (n % 16)]

/-- Escaping of one character by `json.dumps` with `ensure_ascii=True`:
quote, backslash and the named control characters get two-character
escapes; every other character outside `0x20`-`0x7e` becomes `\uXXXX`
escapes (a surrogate pair above `0xffff`); printable ASCII passes
through. -/
def escChar (c : Char) : List Char :=
  if c = '"' then ['\\', '"']
  else if c = '\\' then ['\\', '\\']
  else if c = '\n' then ['\\', 'n']
  else if c = '\t' then ['\\', 't']
  else if c = '\r' then ['\\', 'r']
  else if c = '\x08' then ['\\', 'b']
  else if c = '\x0c' then ['\\', 'f']
  else if c.toNat < 32 ∨ c.toNat > 126 then
    if c.toNat > 65535 then
      uEsc4 (55296 + (c.toNat - 65536) / 1024) ++ uEsc4 (56320 + (c.toNat - 65536) % 1024)
    else uEsc4 c.toNat
  else [c]

/-- JSON serialization of a string: quotes around the escaped characters. -/
def dumpStr (s : String) : String :=
  ⟨'"' :: (s.data.map escChar).flatten ++ ['"']⟩

/-- Permutation fact about key-sorting, needed to justify recursing into
the sorted entries when serializing a dict. -/
theorem sortKV_perm (l : List (String × Value)) : List.Perm (sortKV l) l :=
  List.perm_insertionSort _ l

/-- Inserting an element adds exactly its size (plus the cons cell). -/
theorem sizeOf_orderedInsert {α} [SizeOf α] (r : α → α → Prop) [DecidableRel r]
    (p : α) (l : List α) :
    sizeOf (List.orderedInsert r p l) = 1 + sizeOf p + sizeOf l := by
  induction l with
  | nil => simp [List.orderedInsert]
  | cons q t ih =>
    simp only [List.orderedInsert]
    split
    · simp only [List.cons.sizeOf_spec]
      try omega
    · simp only [List.cons.sizeOf_spec, ih]
      omega

/-- Sorting preserves total size. -/
theorem sizeOf_insertionSort {α} [SizeOf α] (r : α → α → Prop) [DecidableRel r]
    (l : List α) : sizeOf (List.insertionSort r l) = sizeOf l := by
  induction l with
  | nil => rfl
  | cons a t ih =>
    simp only [List.insertionSort, sizeOf_orderedInsert, ih, List.cons.sizeOf_spec]

/-- Sorting the entries of a dict preserves their total size, so the
serializer below may recurse into the sorted list. -/
theorem sizeOf_sortKV (l : List (String × Value)) :
    sizeOf (sortKV l) = sizeOf l :=
  sizeOf_insertionSort _ l

mutual

/-- Model of `json.dumps(v, sort_keys=True)` with the library defaults
(`ensure_ascii=True`, separators `', '` and `': '`): strings are
escaped and quoted, ints printed in decimal, booleans and `None` as
their JSON keywords, lists and tuples as arrays, dicts as objects with
entries sorted by key.  Python's `repr` of a float is abstracted by the
decimal representation of the carried rational, and the `other`
constructor (on which `json.dumps` raises `TypeError`) by a placeholder
string: schemas are parsed JSON, in which neither occurs, and no claim
depends on either rendering. -/
def dumpsVal : Value → String
  | .str s => dumpStr s
  | .int n => toString n
  | .float q => toString q
  | .bool b => if b then "true" else "false"
  | .null => "null"
  | .list items => "[" ++ pyJoin ", " (dumpsList items) ++ "]"
  | .tup items => "[" ++ pyJoin ", " (dumpsList items) ++ "]"
  | .dict entries => "\x7b" ++ pyJoin ", " (dumpsEntries (sortKV entries)) ++ "\x7d"
  | .other t => "<not json serializable: " ++ t ++ ">"
termination_by v => sizeOf v
decreasing_by
  all_goals simp_wf
  all_goals try rw [sizeOf_sortKV]
  all_goals omega

/-- Serialization of array items, in order. -/
def dumpsList : List Value → List String
  | [] => []
  | v :: rest => dumpsVal v :: dumpsList rest
termination_by l => sizeOf l
decreasing_by
  all_goals simp_wf
  all_goals omega

/-- Serialization of (already sorted) object entries as `"key": value`. -/
def dumpsEntries : List (String × Value) → List String
  | [] => []
  | (k, v) :: rest => (dumpStr k ++ ": " ++ dumpsVal v) :: dumpsEntries rest
termination_by l => sizeOf l
decreasing_by
  all_goals simp_wf
  all_goals omega

end

/-! ### SHA-256 (FIPS 180-4), on `Nat` with explicit reduction mod `2^32` -/

/-- Truncation to a 32-bit word. -/
def w32 (n : Nat) : Nat := n % 4294967296

/-- Right rotation of a 32-bit word (`ror`): the shifted-out low bits
reappear at the top; on disjoint bit ranges, bitwise or is addition. -/
def rotr (x n : Nat) : Nat := w32 (x / 2 ^ n + x % 2 ^ n * 2 ^ (32 - n))

/-- Message-schedule sigma-0: `rotr 7 xor rotr 18 xor shr 3`. -/
def sSigma0 (x : Nat) : Nat := rotr x 7 ^^^ rotr x 18 ^^^ x / 8

/-- Message-schedule sigma-1: `rotr 17 xor rotr 19 xor shr 10`. -/
def sSigma1 (x : Nat) : Nat := rotr x 17 ^^^ rotr x 19 ^^^ x / 1024

/-- Compression Sigma-0: `rotr 2 xor rotr 13 xor rotr 22`. -/
def bSigma0 (x : Nat) : Nat := rotr x 2 ^^^ rotr x 13 ^^^ rotr x 22

/-- Compression Sigma-1: `rotr 6 xor rotr 11 xor rotr 25`. -/
def bSigma1 (x : Nat) : Nat := rotr x 6 ^^^ rotr x 11 ^^^ rotr x 25

/-- The sixty-four SHA-256 round constants. -/
def sha256K : List Nat :=
  [ 1116352408, 1899447441, 3049323471, 3921009573, 961987163, 1508970993,
    2453635748, 2870763221, 3624381080, 310598401, 607225278, 1426881987,
    1925078388, 2162078206, 2614888103, 3248222580, 3835390401, 4022224774,
    264347078, 604807628, 770255983, 1249150122, 1555081692, 1996064986,
    2554220882, 2821834349, 2952996808, 3210313671, 3336571891, 3584528711,
    113926993, 338241895, 666307205, 773529912, 1294757372, 1396182291,
    1695183700, 1986661051, 2177026350, 2456956037, 2730485921, 2820302411,
    3259730800, 3345764771, 3516065817, 3600352804, 4094571909, 275423344,
    430227734, 506948616, 659060556, 883997877, 958139571, 1322822218,
    1537002063, 1747873779, 1955562222, 2024104815, 2227730452, 2361852424,
    2428436474, 2756734187, 3204031479, 3329325298 ]

/-- The eight SHA-256 initial hash words. -/
def sha256Init : List Nat :=
  [ 1779033703, 3144134277, 1013904242, 2773480762, 1359893119, 2600822924,
    528734635, 1541459225 ]

/-- Big-endian packing of groups of four bytes into 32-bit words. -/
def bytesToWordsBE : List Nat → List Nat
  | b0 :: b1 :: b2 :: b3 :: rest =>
    (b0 * 16777216 + b1 * 65536 + b2 * 256 + b3) :: bytesToWordsBE rest
  | _ => []

/-- One step of the message-schedule extension, appending word `t` from
words `t-16`, `t-15`, `t-7` and `t-2`. -/
def scheduleStep (acc : List Nat) : List Nat :=
  let t := acc.length
  acc ++ [w32 (acc.getD (t - 16) 0 + sSigma0 (acc.getD (t - 15) 0)
    + acc.getD (t - 7) 0 + sSigma1 (acc.getD (t - 2) 0))]

/-- Extension of the sixteen chunk words to the sixty-four schedule words. -/
def buildSchedule (ws : List Nat) : List Nat :=
  (List.range 48).foldl (fun acc _ => scheduleStep acc) ws

/-- One compression round on the state `[a,b,c,d,e,f,g,h]` with round
constant and schedule word; 32-bit complement is subtraction from the
all-ones word. -/
def compressRound (st : List Nat) (kw : Nat × Nat) : List Nat :=
  match st with
  | [a, b, c, d, e, f, g, h] =>
    let ch := (e &&& f) ^^^ ((4294967295 - e) &&& g)
    let temp1 := w32 (h + bSigma1 e + ch + kw.1 + kw.2)
    let maj := (a &&& b) ^^^ (a &&& c) ^^^ (b &&& c)
    let temp2 := w32 (bSigma0 a + maj)
    [w32 (temp1 + temp2), a, b, c, w32 (d + temp1), e, f, g]
  | other => other

/-- Compression of one 64-byte chunk into the running hash. -/
def processChunk (h : List Nat) (chunk : List Nat) : List Nat :=
  let ws := buildSchedule (bytesToWordsBE chunk)
  let st := (sha256K.zip ws).foldl compressRound h
  (h.zip st).map fun p => w32 (p.1 + p.2)

/-- SHA-256 padding: a `0x80` byte, zeros to 56 mod 64, then the bit
length as eight big-endian bytes. -/
def padMessage (msg : List Nat) : List Nat :=
  let l := msg.length
  let bitLen := 8 * l
  msg ++ [128] ++ List.replicate ((119 - l % 64) % 64) 0 ++
    [ bitLen / 72057594037927936 % 256, bitLen / 281474976710656 % 256,
      bitLen / 1099511627776 % 256, bitLen / 4294967296 % 256,
      bitLen / 16777216 % 256, bitLen / 65536 % 256,
      bitLen / 256 % 256, bitLen % 256 ]

/-- Split into 64-byte chunks. -/
def chunks64 (l : List Nat) : List (List Nat) :=
  if h : l = [] then [] else l.take 64 :: chunks64 (l.drop 64)
termination_by l.length
decreasing_by
  simp only [List.length_drop]
  cases l with
  | nil => exact absurd rfl h
  | cons a t => simp only [List.length_cons]; omega

/-- The SHA-256 digest (32 bytes) of a byte sequence. -/
def sha256Bytes (msg : List Nat) : List Nat :=
  let hh := (chunks64 (padMessage msg)).foldl processChunk sha256Init
  (hh.map fun w => [w / 16777216 % 256, w / 65536 % 256, w / 256 % 256, w % 256]).flatten

/-- Lowercase hexadecimal rendering of a byte sequence (`hexdigest()`). -/
def toHexString (bytes : List Nat) : String :=
  ⟨(bytes.map fun b => [hexDigitChar (b / 16 % 16), hexDigitChar (b % 16)]).flatten⟩

/-- UTF-8 encoding (`str.encode()`) of the serialized schemas: the output
of `dumpsVal` is pure ASCII (`ensure_ascii=True`), where UTF-8 is the
identity on code points. -/
def asciiBytes (s : String) : List Nat := s.data.map Char.toNat

/-- Model of `SchemaManager.get_schema_hash` (infoblox-mcp-server.py:200-203):
the hex digest of the SHA-256 of the key-sorted JSON serialization. -/
def getSchemaHash (schemas : List (String × Value)) : String :=
  toHexString (sha256Bytes (asciiBytes (dumpsVal (.dict schemas))))

/-- Model of `SchemaManager.has_schema_changed`
(infoblox-mcp-server.py:205-219), with the hash file's state passed
explicitly (`none` when the file does not exist, else its content):
returns `False` and leaves the file alone when the stored, stripped
hash equals the new one; otherwise writes the new hash and returns
`True`. -/
def hasSchemaChanged (schemas : List (String × Value))
    (hashFile : Option String) : Bool × Option String :=
  let newHash := getSchemaHash schemas
  match hashFile with
  | some content =>
    if pyStrip content = newHash then (false, hashFile) else (true, some newHash)
  | none => (true, some newHash)

/-! ### Key-order normalization (the claim's notion of JSON-value equality) -/

mutual

/-- Recursive key-sorting of dict entries: two `Value`s are equal as JSON
values regardless of key insertion order exactly when their
normalizations are equal. -/
def normalizeVal : Value → Value
  | .str s => .str s
  | .int n => .int n
  | .float q => .float q
  | .bool b => .bool b
  | .null => .null
  | .list items => .list (normalizeList items)
  | .tup items => .tup (normalizeList items)
  | .dict entries => .dict (sortKV (normalizeEntries entries))
  | .other t => .other t

/-- Pointwise normalization of array items. -/
def normalizeList : List Value → List Value
  | [] => []
  | v :: rest => normalizeVal v :: normalizeList rest

/-- Valuewise normalization of dict entries. -/
def normalizeEntries : List (String × Value) → List (String × Value)
  | [] => []
  | (k, v) :: rest => (k, normalizeVal v) :: normalizeEntries rest

end


/-! ### Claim-side predicates for the filter validator

The following two definitions follow the claim's wording (the list of
forbidden patterns as the claim describes them), to be compared with
`hasForbiddenPattern`, which is translated from the source's regexes. -/

/-- The shell metacharacters the claim lists. -/
def specMetaChars : List Char :=
  [';', '|', '&', '$', '(', ')', Char.ofNat 96]

/-- Modelled from the claim's words: the string contains an
`on<word>=` event handler — somewhere in it, `on` (case-insensitive)
followed by at least one word character, optional whitespace, and an
equals sign. -/
def SpecOnHandler (s : String) : Prop :=
  ∃ (pre : List Char) (o n : Char) (w sp rest : List Char),
    s.data = pre ++ o :: n :: (w ++ (sp ++ '=' :: rest)) ∧
    o.toLower = 'o' ∧ n.toLower = 'n' ∧ w ≠ [] ∧
    (∀ c ∈ w, pyWordChar c = true) ∧ (∀ c ∈ sp, pySpaceChar c = true)

/-- Modelled from the claim's words: the string contains
(case-insensitively) a forbidden pattern — a shell metacharacter, the
path-traversal sequence `../..`, `<script`, `javascript:`, or an
`on<word>=` event handler. -/
def SpecForbidden (s : String) : Prop :=
  (∃ c ∈ s.data, c ∈ specMetaChars) ∨
  "../..".data <:+: s.data.map Char.toLower ∨
  "<script".data <:+: s.data.map Char.toLower ∨
  "javascript:".data <:+: s.data.map Char.toLower ∨
  SpecOnHandler s

/-! ## Theorems for the claims -/

/-- C2: the claim states that splitting a generated tool name on
underscores recovers exactly the original object-type string for every
candidate object type, including those containing underscores such as
`zone_auth`.  The code violates this: the name generated for
`zone_auth` parses back to `zone:auth` (the parser turns every
underscore of the remainder into a colon, as its own comment `Convert
back to InfoBlox format` promises only for colons), while colon-typed
names such as `record:a` do round-trip. -/
theorem call_tool_name_roundtrip_fails_on_zone_auth :
    mkToolName "list" (cleanName "zone_auth") = "infoblox_list_zone_auth" ∧
    parseToolName "infoblox_list_zone_auth" = some ("list", "zone:auth") ∧
    "zone:auth" ≠ "zone_auth" ∧
    mkToolName "list" (cleanName "record:a") = "infoblox_list_record_a" ∧
    parseToolName "infoblox_list_record_a" = some ("list", "record:a") := by
  refine ⟨rfl, ?_, by decide, rfl, ?_⟩ <;> rfl

/-- C4: the claim states that `validate_file_path` accepts exactly the
paths contained in the allowed base directory.  The containment
decision the code performs is `abs_path.startswith(allowed_base)`, a
plain string-prefix test: it accepts `/base2/secret` against the base
`/base`, although that path lies outside the base directory, against
the function's own docstring (`Raises ... If path is outside allowed
directory`). -/
theorem validate_file_path_accepts_prefix_sibling :
    validateFilePathResolved "/base2/secret" "/base" = .ok "/base2/secret" ∧
    inDirSpec "/base2/secret" "/base" = false ∧
    validateFilePathResolved "/base/sub/file.txt" "/base" = .ok "/base/sub/file.txt" ∧
    inDirSpec "/base/sub/file.txt" "/base" = true ∧
    validateFilePathResolved "/etc/passwd" "/base"
      = .error "Path '/etc/passwd' is outside allowed directory '/base'" := by
  refine ⟨?_, ?_, ?_, ?_, ?_⟩ <;> rfl

/-- The wrapper of `call_tool` only reshapes the payload: the requests
that were issued are those of the body. -/
theorem callToolRun_snd (net : HttpRequest → NetOutcome) (name : String)
    (arguments : List (String × Value)) :
    (callToolRun net name arguments).2 = (callToolInner net name arguments).2 := by
  unfold callToolRun
  rcases callToolInner net name arguments with ⟨r, reqs⟩
  cases r with
  | ok v => rfl
  | error e => cases e <;> rfl

/-- Replacing a key other than the looked-up one does not change the
lookup. -/
theorem setKey_lookup_ne (l : List (String × Value)) (kset : String)
    (v : Value) (k : String) (h : kset ≠ k) :
    (setKey l kset v).lookup k = l.lookup k := by
  have hne : (k == kset) = false := beq_eq_false_iff_ne.mpr (Ne.symm h)
  induction l with
  | nil => simp [setKey, List.lookup, hne]
  | cons kv t ih =>
    obtain ⟨k0, v0⟩ := kv
    unfold setKey
    by_cases h0 : k0 = kset
    · subst h0
      simp [List.lookup, hne]
    · rw [if_neg h0]
      cases hk : k == k0 <;> simp [List.lookup, hk, ih]

/-- The filter loop of the list branch does not touch parameters whose
name occurs in no filter. -/
theorem addValidatedFilters_lookup :
    ∀ {params kvs params' : List (String × Value)},
      addValidatedFilters params kvs = .ok params' →
      ∀ k : String, (∀ kv ∈ kvs, kv.1 ≠ k) →
        params'.lookup k = params.lookup k := by
  intro params kvs
  induction kvs generalizing params with
  | nil =>
    intro params' h k hk
    obtain rfl : params = params' := Except.ok.injEq _ _ |>.mp h
    rfl
  | cons hd tl ih =>
    intro params' h k hk
    obtain ⟨f, v⟩ := hd
    unfold addValidatedFilters at h
    cases hv : validateFilterValue v with
    | error e => rw [hv] at h; simp at h
    | ok v' =>
      rw [hv] at h
      have htl := ih h k fun kv hkv => hk kv (List.mem_cons_of_mem _ hkv)
      rw [htl, setKey_lookup_ne _ _ _ _ (hk (f, v) (List.mem_cons_self _ _))]

/-- The search branch's `params.update(filters)` does not touch
parameters whose name occurs in no filter. -/
theorem dictUpdate_lookup :
    ∀ (new l : List (String × Value)) (k : String),
      (∀ kv ∈ new, kv.1 ≠ k) →
      (dictUpdate l new).lookup k = l.lookup k := by
  intro new
  induction new with
  | nil => intro l k _; rfl
  | cons kv t ih =>
    intro l k hk
    show (dictUpdate (setKey l kv.1 kv.2) t).lookup k = l.lookup k
    rw [ih _ k fun u hu => hk u (List.mem_cons_of_mem _ hu),
      setKey_lookup_ne _ _ _ _ (hk kv (List.mem_cons_self _ _))]

/-- C10, counterexample: the claim states that every list invocation
sends `_max_results` equal to the capped request (the default 100 when
absent).  But the filter loop runs after the cap and stores each
`search_fields` entry under its own name, and `validate_filter_value`
passes integers — so a list call with no `max_results` and
`search_fields = critical entry named _max_results` sends
`_max_results = 5000` where the claim demands 100. -/
theorem list_cap_overwritten_by_search_field :
    (callToolRun (fun _ => .empty) "infoblox_list_network"
        [("search_fields", .dict [("_max_results", .int 5000)])]).2 =
      [{ method := "GET", path := "network",
         params := [("_max_results", .int 5000)], body := none }] ∧
    validateFilterValue (.int 5000) = .ok (.int 5000) ∧
    (Value.int 5000 : Value) ≠ Value.int 100 := by
  refine ⟨rfl, rfl, ?_⟩
  simp

/-- C10, amended: the list branch caps the requested `max_results` at
1000 before storing it as `_max_results` (so an absent request yields
the default 100), and that capped value is what reaches the wire
whenever no `search_fields` entry is itself named `_max_results` (such
an entry is stored after the cap and shadows it); the search branch
sends the requested value uncapped whenever no `filters` entry is
named `_max_results`. -/
theorem list_branch_caps_max_results_unless_shadowed :
    (∀ n : Int, capMaxResults (.int n)
      = .ok (if n > 1000 then Value.int 1000 else Value.int n)) ∧
    (∀ (net : HttpRequest → NetOutcome) (ot : String)
        (args : List (String × Value)) (req : HttpRequest) (n : Int)
        (kvs : List (String × Value)),
      req ∈ (dispatch net "list" ot args).2 →
      getArg args "max_results" (.int 100) = .int n →
      getArg args "search_fields" (.dict []) = .dict kvs →
      (∀ kv ∈ kvs, kv.1 ≠ "_max_results") →
      req.params.lookup "_max_results"
        = some (if n > 1000 then Value.int 1000 else Value.int n)) ∧
    (∀ (net : HttpRequest → NetOutcome) (ot : String)
        (args : List (String × Value)) (req : HttpRequest) (n : Int)
        (kvs : List (String × Value)),
      req ∈ (dispatch net "search" ot args).2 →
      getArg args "max_results" (.int 100) = .int n →
      getArg args "filters" (.dict []) = .dict kvs →
      (∀ kv ∈ kvs, kv.1 ≠ "_max_results") →
      req.params.lookup "_max_results" = some (Value.int n)) := by
  refine ⟨fun n => rfl, ?_, ?_⟩
  · intro net ot args req n kvs hreq hmr hsf hkvs
    unfold dispatch at hreq
    simp only [if_pos rfl] at hreq
    rw [hmr] at hreq
    dsimp only [capMaxResults] at hreq
    rw [hsf] at hreq
    dsimp only at hreq
    by_cases hrf : (getArg args "return_fields" (.str "")).truthy = true <;>
      simp only [hrf, Bool.false_eq_true, if_pos, if_neg, ite_true, ite_false] at hreq <;>
      [skip; skip] <;>
    · cases hval : addValidatedFilters _ kvs with
      | error e => rw [hval] at hreq; simp at hreq
      | ok params' =>
        rw [hval] at hreq
        dsimp only [clientCall] at hreq
        obtain rfl := List.mem_singleton.mp hreq
        show params'.lookup "_max_results" = _
        rw [addValidatedFilters_lookup hval _ hkvs]
        simp [setKey, List.lookup]
  · intro net ot args req n kvs hreq hmr hf hkvs
    unfold dispatch at hreq
    simp only [show ("search" = "list") = False from by simp,
      show ("search" = "get") = False from by simp,
      show ("search" = "create") = False from by simp,
      show ("search" = "update") = False from by simp,
      if_neg, if_pos, ite_false, ite_true, eq_self_iff_true] at hreq
    rw [hmr, hf] at hreq
    dsimp only at hreq
    by_cases hrf : (getArg args "return_fields" (.str "")).truthy = true <;>
      simp only [hrf, Bool.false_eq_true, ite_true, ite_false] at hreq <;>
    · dsimp only [clientCall] at hreq
      obtain rfl := List.mem_singleton.mp hreq
      show (dictUpdate _ kvs).lookup "_max_results" = _
      rw [dictUpdate_lookup kvs _ _ hkvs]
      simp [setKey, List.lookup]

/-- Witness for C10's amended theorem: a list call requesting 2500 with a
benign filter sends the capped value. -/
theorem list_branch_caps_max_results_unless_shadowed_witness :
    ({ method := "GET", path := "network",
       params := [("_max_results", Value.int 1000), ("name", Value.str "web")],
       body := none } : HttpRequest).params.lookup "_max_results"
      = some (if (2500 : Int) > 1000 then Value.int 1000 else Value.int 2500) :=
  list_branch_caps_max_results_unless_shadowed.2.1 (fun _ => .empty) "network"
    [("max_results", Value.int 2500), ("search_fields", Value.dict [("name", Value.str "web")])]
    { method := "GET", path := "network",
      params := [("_max_results", Value.int 1000), ("name", Value.str "web")],
      body := none }
    2500 [("name", Value.str "web")]
    (List.mem_singleton.mpr rfl) rfl rfl
    (by intro kv hkv; simp at hkv; simp [hkv])

/-- A successful `validate_object_type` returns its input unchanged. -/
theorem validateObjectType_ok {s t : String} (h : validateObjectType s = .ok t) :
    t = s := by
  unfold validateObjectType at h
  split_ifs at h <;> simp_all

/-- A successful run of the list-branch filter loop means every filter
value passed `validate_filter_value`. -/
theorem addValidatedFilters_ok :
    ∀ {params : List (String × Value)} {kvs : List (String × Value)}
      {params' : List (String × Value)},
      addValidatedFilters params kvs = .ok params' →
      ∀ kv ∈ kvs, ∃ v', validateFilterValue kv.2 = .ok v' := by
  intro params kvs
  induction kvs generalizing params with
  | nil =>
    intro params' h kv hkv
    simp at hkv
  | cons hd tl ih =>
    intro params' h kv hkv
    obtain ⟨k, v⟩ := hd
    unfold addValidatedFilters at h
    cases hv : validateFilterValue v with
    | error e => rw [hv] at h; simp at h
    | ok v' =>
      rw [hv] at h
      rcases List.mem_cons.mp hkv with rfl | hmem
      · exact ⟨v', hv⟩
      · exact ih h kv hmem

/-- Any request issued by the body of `call_tool` is issued inside the
operation dispatch, after both the tool name and the parsed object
type have passed `validate_object_type`. -/
theorem callToolInner_reqs (net : HttpRequest → NetOutcome) (name : String)
    (args : List (String × Value)) (req : HttpRequest)
    (h : req ∈ (callToolInner net name args).2) :
    validateObjectType name = .ok name ∧
    ∃ op ot, parseToolName name = some (op, ot) ∧
      validateObjectType ot = .ok ot ∧
      req ∈ (dispatch net op ot args).2 := by
  unfold callToolInner at h
  cases hn : validateObjectType name with
  | error e => rw [hn] at h; simp at h
  | ok vname =>
    rw [hn] at h
    dsimp only at h
    have hvn := validateObjectType_ok hn
    subst vname
    cases hp : parseToolName name with
    | none => rw [hp] at h; simp at h
    | some p =>
      obtain ⟨op, ot⟩ := p
      rw [hp] at h
      dsimp only at h
      cases hot : validateObjectType ot with
      | error e => rw [hot] at h; simp at h
      | ok vot =>
        rw [hot] at h
        dsimp only at h
        have hv := validateObjectType_ok hot
        subst vot
        exact ⟨rfl, op, ot, rfl, hot, h⟩

/-- Any request issued by the list branch comes after every
`search_fields` value passed `validate_filter_value`. -/
theorem dispatch_list_reqs (net : HttpRequest → NetOutcome) (ot : String)
    (args : List (String × Value)) (req : HttpRequest)
    (h : req ∈ (dispatch net "list" ot args).2) :
    ∃ kvs, getArg args "search_fields" (.dict []) = .dict kvs ∧
      ∀ kv ∈ kvs, ∃ v', validateFilterValue kv.2 = .ok v' := by
  unfold dispatch at h
  simp only [if_pos rfl] at h
  cases hcap : capMaxResults (getArg args "max_results" (.int 100)) with
  | error e => rw [hcap] at h; simp at h
  | ok mr =>
    rw [hcap] at h
    cases hsf : getArg args "search_fields" (.dict []) <;> rw [hsf] at h <;>
      try simp at h
    rename_i kvs
    cases hval : addValidatedFilters _ kvs with
    | error e => rw [hval] at h; simp at h
    | ok params' => exact ⟨kvs, rfl, addValidatedFilters_ok hval⟩

/-- C1, counterexample: the claim states that every argument value
reaching the wire passes the `InputValidator` layer first, across all
six operations.  In the search branch the filter values are copied
into the query parameters without any validation: the value `a;b`,
which `validate_filter_value` rejects, is sent to the InfoBlox client. -/
theorem search_branch_sends_unvalidated_filter :
    (callToolRun (fun _ => .empty) "infoblox_search_network"
        [("filters", .dict [("name", .str "a;b")])]).2 =
      [{ method := "GET", path := "network",
         params := [("_max_results", .int 100), ("name", .str "a;b")],
         body := none }] ∧
    validateFilterValue (.str "a;b") =
      .error "Invalid characters detected in filter value. Potential injection attempt blocked." := by
  exact ⟨rfl, rfl⟩

/-- C1, amended: before any HTTP request is issued, the tool name and the
object type parsed from it pass `validate_object_type`, and in the
list branch every `search_fields` filter value passes
`validate_filter_value`; the remaining argument values (`ref`, `data`,
`return_fields`, and the search branch's `filters`) are forwarded to
the client without passing the validator. -/
theorem call_tool_validation_before_requests (net : HttpRequest → NetOutcome)
    (name : String) (args : List (String × Value)) (req : HttpRequest)
    (h : req ∈ (callToolRun net name args).2) :
    validateObjectType name = .ok name ∧
    ∃ op ot, parseToolName name = some (op, ot) ∧
      validateObjectType ot = .ok ot ∧
      (op = "list" →
        ∃ kvs, getArg args "search_fields" (.dict []) = .dict kvs ∧
          ∀ kv ∈ kvs, ∃ v', validateFilterValue kv.2 = .ok v') := by
  rw [callToolRun_snd] at h
  obtain ⟨hname, op, ot, hparse, hot, hreq⟩ := callToolInner_reqs net name args req h
  refine ⟨hname, op, ot, hparse, hot, fun hop => ?_⟩
  subst hop
  exact dispatch_list_reqs net ot args req hreq

/-- Witness for C1's amended theorem at a concrete list invocation. -/
theorem call_tool_validation_before_requests_witness :
    validateObjectType "infoblox_list_network" = .ok "infoblox_list_network" ∧
    ∃ op ot, parseToolName "infoblox_list_network" = some (op, ot) ∧
      validateObjectType ot = .ok ot ∧
      (op = "list" →
        ∃ kvs, getArg [("search_fields", Value.dict [("name", Value.str "web")])]
            "search_fields" (.dict []) = .dict kvs ∧
          ∀ kv ∈ kvs, ∃ v', validateFilterValue kv.2 = .ok v') :=
  call_tool_validation_before_requests (fun _ => .empty) "infoblox_list_network"
    [("search_fields", Value.dict [("name", Value.str "web")])]
    { method := "GET", path := "network",
      params := [("_max_results", Value.int 100), ("name", Value.str "web")],
      body := none }
    (List.mem_singleton.mpr rfl)

/-- C6: `call_tool` never propagates an exception: whatever the network
does and whatever the inputs are, it returns exactly one
`TextContent`; when the body raised, the payload is the
`{"error": ...}` dict of the outer handlers, and when the body
returned, the payload is the body's result.  `InfoBloxClient.request`
turns HTTP errors and unexpected exceptions into `{"error": ...}`
dicts, and re-raises exactly the connection errors and timeouts (for
the retry decorator). -/
theorem call_tool_never_raises :
    (∀ (net : HttpRequest → NetOutcome) (name : String)
        (args : List (String × Value)),
      ∃ payload, (callToolRun net name args).1 = [⟨payload⟩]) ∧
    (∀ (net : HttpRequest → NetOutcome) (name : String)
        (args : List (String × Value)) (v : Value) (reqs : List HttpRequest),
      callToolInner net name args = (.ok v, reqs) →
        (callToolRun net name args).1 = [⟨v⟩]) ∧
    (∀ (net : HttpRequest → NetOutcome) (name : String)
        (args : List (String × Value)) (e : PyErr) (reqs : List HttpRequest),
      callToolInner net name args = (.error e, reqs) →
        (callToolRun net name args).1 = [⟨errPayload (pyErrMsg e)⟩] ∨
        (callToolRun net name args).1
          = [⟨errPayload ("Validation error: " ++ pyErrMsg e)⟩]) ∧
    (∀ (net : HttpRequest → NetOutcome) (req : HttpRequest) (e : PyErr),
      requestModel net req = .error e →
        (∃ m, net req = .connError m) ∨ (∃ m, net req = .timeoutExc m)) ∧
    (∀ (net : HttpRequest → NetOutcome) (req : HttpRequest) (status : Int)
        (m : String),
      net req = .httpError status m →
        requestModel net req
          = .ok (.dict [("error", .str m), ("status_code", .int status)])) ∧
    (∀ (net : HttpRequest → NetOutcome) (req : HttpRequest) (m : String),
      net req = .otherExc m →
        requestModel net req = .ok (.dict [("error", .str m)])) := by
  refine ⟨?_, ?_, ?_, ?_, ?_, ?_⟩
  · intro net name args
    unfold callToolRun
    rcases callToolInner net name args with ⟨r, reqs⟩
    cases r with
    | ok v => exact ⟨v, rfl⟩
    | error e => cases e <;> exact ⟨_, rfl⟩
  · intro net name args v reqs h
    unfold callToolRun
    rw [h]
  · intro net name args e reqs h
    unfold callToolRun
    rw [h]
    cases e
    · right; rfl
    all_goals left; rfl
  · intro net req e h
    unfold requestModel at h
    cases hn : net req <;> rw [hn] at h <;> simp at h
    · exact .inl ⟨_, rfl⟩
    · exact .inr ⟨_, rfl⟩
  · intro net req status m h
    unfold requestModel
    rw [h]
  · intro net req m h
    unfold requestModel
    rw [h]

/-- Witness for C6 at concrete inputs: a delete call over a network that
always times out, and an HTTP 404 outcome converted to an error dict. -/
theorem call_tool_never_raises_witness :
    (∃ payload,
      (callToolRun (fun _ => .timeoutExc "timed out") "infoblox_delete_network"
          [("ref", Value.str "network/ZG5z:1")]).1 = [⟨payload⟩]) ∧
    requestModel (fun _ => NetOutcome.httpError 404 "404 Client Error")
        ⟨"GET", "network", [], none⟩
      = .ok (.dict [("error", .str "404 Client Error"), ("status_code", .int 404)]) :=
  ⟨call_tool_never_raises.1 (fun _ => .timeoutExc "timed out")
      "infoblox_delete_network" [("ref", Value.str "network/ZG5z:1")],
    call_tool_never_raises.2.2.2.2.1 (fun _ => NetOutcome.httpError 404 "404 Client Error")
      ⟨"GET", "network", [], none⟩ 404 "404 Client Error" rfl⟩

/-- A successful `_generate_crud_tools` produces exactly the six-descriptor
template for its object type. -/
theorem genCrudTools_ok {ot : String} {schema : Value} {ts : List Tool}
    (h : genCrudTools ot schema = .ok ts) :
    ∃ cf, ts = crudToolList ot (cleanName ot) cf := by
  unfold genCrudTools at h
  cases schema <;> try simp at h
  rename_i d
  cases hit : pyIter (getArg d "fields" (.list [])) <;> rw [hit] at h <;>
      dsimp only at h
  · simp at h
  · rename_i fields
    cases hj : pyJoinValues ", " ((extractSearchableFields fields).take 10) <;>
        rw [hj] at h <;> dsimp only at h
    · simp at h
    · rename_i cf
      exact ⟨cf, (Except.ok.injEq _ _ |>.mp h).symm⟩

/-- C3, counterexample: the claim states that `generate_tools` emits six
descriptors per object type for every schema dictionary.  On a schema
whose `fields` list holds a dict with a non-string truthy `name`
(here the integer 5), the `', '.join` in the create-tool description
raises `TypeError`, so generation raises and emits no tool list at
all. -/
theorem generate_tools_raises_on_nonstring_field_name :
    generateTools
        [("network", .dict [("fields", .list [.dict [("name", .int 5)]])])]
      = .error (.typeErr "sequence item: expected str instance") ∧
    ∀ ts, generateTools
        [("network", .dict [("fields", .list [.dict [("name", .int 5)]])])]
      ≠ .ok ts := by
  refine ⟨rfl, fun ts h => ?_⟩
  rw [show generateTools
        [("network", .dict [("fields", .list [.dict [("name", .int 5)]])])]
      = .error (.typeErr "sequence item: expected str instance") from rfl] at h
  exact Except.noConfusion h

/-- C3, amended: whenever `generate_tools` returns (no step raised — in
particular whenever every schema's `fields` member is a list whose
dict elements carry string names), it emits exactly six tool
descriptors per object type, named `infoblox_<op>_<clean_name>` for
the operations list, get, create, update, delete, search in that
order. -/
theorem generate_tools_six_per_type (schemas : List (String × Value))
    (ts : List Tool) (h : generateTools schemas = .ok ts) :
    ts.length = 6 * schemas.length ∧
    ts.map Tool.name = schemas.flatMap (fun p =>
      ["list", "get", "create", "update", "delete", "search"].map
        fun op => mkToolName op (cleanName p.1)) := by
  induction schemas generalizing ts with
  | nil =>
    simp only [generateTools, Except.ok.injEq] at h
    subst h
    simp
  | cons hd tl ih =>
    obtain ⟨ot, schema⟩ := hd
    unfold generateTools at h
    cases hg : genCrudTools ot schema <;> rw [hg] at h <;> dsimp only at h
    · simp at h
    · rename_i ts1
      cases hr : generateTools tl <;> rw [hr] at h <;> dsimp only at h
      · simp at h
      · rename_i ts2
        obtain rfl : ts1 ++ ts2 = ts := Except.ok.injEq _ _ |>.mp h
        obtain ⟨cf, rfl⟩ := genCrudTools_ok hg
        obtain ⟨hlen, hnames⟩ := ih ts2 hr
        constructor
        · simp only [List.length_append, hlen, List.length_cons]
          rw [show (crudToolList ot (cleanName ot) cf).length = 6 from rfl]
          ring
        · simp only [List.map_append, hnames, List.flatMap_cons]
          congr 1

/-- Witness for C3's amended theorem on a one-type schema set. -/
theorem generate_tools_six_per_type_witness :
    ∃ ts, generateTools [("zone_auth", Value.dict [])] = .ok ts ∧
      ts.length = 6 * 1 ∧
      ts.map Tool.name =
        ["infoblox_list_zone_auth", "infoblox_get_zone_auth",
          "infoblox_create_zone_auth", "infoblox_update_zone_auth",
          "infoblox_delete_zone_auth", "infoblox_search_zone_auth"] := by
  obtain ⟨ts, hts⟩ : ∃ ts, generateTools [("zone_auth", Value.dict [])] = .ok ts :=
    ⟨_, rfl⟩
  obtain ⟨hlen, hnames⟩ := generate_tools_six_per_type _ ts hts
  exact ⟨ts, hts, by simpa using hlen, by simpa using hnames⟩

/-- C9: the `Settings` instance is constructed at most once per process:
a call that finds the module cell filled returns the stored instance
unchanged, and after any successful call every later call — under any
environment, since the environment is not consulted again — returns
the identical instance and leaves the cell as it is.  Read-only-ness
holds structurally: neither `config.py` nor any caller in the
repository assigns to a field of the instance, and the model's
`Settings` is immutable. -/
theorem get_settings_singleton :
    (∀ (env : Env) (s : Settings), getSettingsM env (some s) = (.ok s, some s)) ∧
    (∀ (env env' : Env) (st st' : Option Settings) (s : Settings),
      getSettingsM env st = (.ok s, st') →
        getSettingsM env' st' = (.ok s, st')) := by
  refine ⟨fun env s => rfl, fun env env' st st' s h => ?_⟩
  cases st with
  | some s0 =>
    obtain ⟨h1, h2⟩ := Prod.mk.injEq .. |>.mp h
    obtain rfl : s0 = s := Except.ok.injEq _ _ |>.mp h1
    subst h2
    rfl
  | none =>
    unfold getSettingsM at h
    cases hm : mkSettings env <;> rw [hm] at h <;> dsimp only at h
    · simp at h
    · obtain ⟨h1, h2⟩ := Prod.mk.injEq .. |>.mp h
      rename_i s1
      obtain rfl : s1 = s := Except.ok.injEq _ _ |>.mp h1
      subst h2
      rfl

/-- Witness for C9: a first call under a fully-set environment constructs
the instance; the theorem then gives that a second call under an empty
environment returns the identical instance. -/
theorem get_settings_singleton_witness :
    ∃ s st', getSettingsM
        (fun k => if k = "INFOBLOX_HOST" then some "gm.example.com"
          else if k = "INFOBLOX_USER" then some "admin"
          else if k = "INFOBLOX_PASSWORD" then some "pw"
          else if k = "ANTHROPIC_API_KEY" then some "key"
          else none)
        none = (.ok s, st') ∧
      getSettingsM (fun _ => none) st' = (.ok s, st') := by
  obtain ⟨s, st', h⟩ :
      ∃ s st', getSettingsM
        (fun k => if k = "INFOBLOX_HOST" then some "gm.example.com"
          else if k = "INFOBLOX_USER" then some "admin"
          else if k = "INFOBLOX_PASSWORD" then some "pw"
          else if k = "ANTHROPIC_API_KEY" then some "key"
          else none)
        none = (.ok s, st') := ⟨_, _, rfl⟩
  exact ⟨s, st', h, get_settings_singleton.2 _ (fun _ => none) none st' s h⟩

/-- An infix of the right half is an infix of a concatenation. -/
theorem strInfix_appendL {x y : String} {d : List Char}
    (h : List.IsInfix d y.data) : List.IsInfix d (x ++ y).data := by
  obtain ⟨s, t, hst⟩ := h
  exact ⟨x.data ++ s, t, by rw [String.data_append, ← hst]; simp⟩

/-- An infix of the left half is an infix of a concatenation. -/
theorem strInfix_appendR {x y : String} {d : List Char}
    (h : List.IsInfix d x.data) : List.IsInfix d (x ++ y).data := by
  obtain ⟨s, t, hst⟩ := h
  exact ⟨s, t ++ y.data, by rw [String.data_append, ← hst]; simp⟩

/-- Every string is an infix of itself. -/
theorem strInfix_self (x : String) : List.IsInfix x.data x.data :=
  ⟨[], [], by simp⟩

/-- An element of a joined list is an infix of the join. -/
theorem strInfix_pyJoin {a : String} {l : List String} (sep : String)
    (h : a ∈ l) : List.IsInfix a.data (pyJoin sep l).data := by
  induction l with
  | nil => simp at h
  | cons b t ih =>
    rcases List.mem_cons.mp h with rfl | hmem
    · cases t with
      | nil => exact strInfix_self a
      | cons c t' =>
        show List.IsInfix a.data ((a ++ sep ++ pyJoin sep (c :: t')).data)
        exact strInfix_appendR (strInfix_appendR (strInfix_self a))
    · cases t with
      | nil => simp at hmem
      | cons c t' =>
        show List.IsInfix a.data ((b ++ sep ++ pyJoin sep (c :: t')).data)
        exact strInfix_appendL (ih hmem)

/-- The joined error lines sit inside the configuration error message. -/
theorem strInfix_join_configErrorMessage (errors : List String) :
    List.IsInfix (pyJoin "\n" (errors.map fun e => "  ✗ " ++ e)).data
      (configErrorMessage errors).data := by
  unfold configErrorMessage
  iterate 9 apply strInfix_appendR
  apply strInfix_appendL
  exact strInfix_self _

/-- C7: constructing `Settings` raises `ConfigurationError` exactly when
one of the four required environment variables is unset or empty; the
message names every missing variable (its `<VAR> environment variable
is required` line occurs in the message); with all four present,
construction succeeds, the required fields hold the given values, and
the optional fields take their documented defaults (for example
`wapi_version` is `v2.13.1`). -/
theorem settings_requires_env_vars :
    (∀ env : Env,
      (∃ e, mkSettings env = .error e) ↔
        (optFalsy (env "INFOBLOX_HOST") = true ∨
          optFalsy (env "INFOBLOX_USER") = true ∨
          optFalsy (env "INFOBLOX_PASSWORD") = true ∨
          optFalsy (env "ANTHROPIC_API_KEY") = true)) ∧
    (∀ (env : Env) (e : String), mkSettings env = .error e →
      (optFalsy (env "INFOBLOX_HOST") = true →
        List.IsInfix "INFOBLOX_HOST environment variable is required".data e.data) ∧
      (optFalsy (env "INFOBLOX_USER") = true →
        List.IsInfix "INFOBLOX_USER environment variable is required".data e.data) ∧
      (optFalsy (env "INFOBLOX_PASSWORD") = true →
        List.IsInfix "INFOBLOX_PASSWORD environment variable is required".data e.data) ∧
      (optFalsy (env "ANTHROPIC_API_KEY") = true →
        List.IsInfix "ANTHROPIC_API_KEY environment variable is required".data e.data)) ∧
    (∀ env : Env,
      optFalsy (env "INFOBLOX_HOST") = false →
      optFalsy (env "INFOBLOX_USER") = false →
      optFalsy (env "INFOBLOX_PASSWORD") = false →
      optFalsy (env "ANTHROPIC_API_KEY") = false →
      ∃ s, mkSettings env = .ok s ∧
        s.infoblox_host = env "INFOBLOX_HOST" ∧
        s.infoblox_user = env "INFOBLOX_USER" ∧
        s.infoblox_password = env "INFOBLOX_PASSWORD" ∧
        s.anthropic_api_key = env "ANTHROPIC_API_KEY" ∧
        (env "WAPI_VERSION" = none → s.wapi_version = "v2.13.1") ∧
        (env "LOG_LEVEL" = none → s.log_level = "INFO") ∧
        (env "LOG_FILE" = none → s.log_file = "ddi-assistant.log") ∧
        (env "INFOBLOX_VERIFY_SSL" = none → s.infoblox_verify_ssl = true) ∧
        (env "ENABLE_SECURITY_AUDIT" = none → s.enable_security_audit = true) ∧
        (env "RAG_COLLECTION_NAME" = none →
          s.rag_collection_name = "infoblox_knowledge") ∧
        s.app_name = "DDI Assistant" ∧ s.app_version = "1.0.0") := by
  have herr : ∀ env : Env, ∀ e, mkSettings env = .error e →
      e = configErrorMessage (validationErrors (loadSettings env)) := by
    intro env e h
    unfold mkSettings at h
    dsimp only at h
    split_ifs at h with hcond
    all_goals simp_all
  have hmem : ∀ env : Env, ∀ line, line ∈ validationErrors (loadSettings env) →
      List.IsInfix line.data
        (configErrorMessage (validationErrors (loadSettings env))).data := by
    intro env line hline
    have hstep1 : List.IsInfix line.data ("  ✗ " ++ line).data :=
      strInfix_appendL (strInfix_self line)
    have hstep2 : List.IsInfix ("  ✗ " ++ line).data
        (pyJoin "\n" ((validationErrors (loadSettings env)).map
          fun e => "  ✗ " ++ e)).data :=
      strInfix_pyJoin "\n" (List.mem_map_of_mem _ hline)
    exact (hstep1.trans hstep2).trans
      (strInfix_join_configErrorMessage (validationErrors (loadSettings env)))
  refine ⟨?_, ?_, ?_⟩
  · intro env
    unfold mkSettings validationErrors loadSettings
    dsimp only
    by_cases h1 : optFalsy (env "INFOBLOX_HOST") <;>
      by_cases h2 : optFalsy (env "INFOBLOX_USER") <;>
      by_cases h3 : optFalsy (env "INFOBLOX_PASSWORD") <;>
      by_cases h4 : optFalsy (env "ANTHROPIC_API_KEY") <;>
      simp [h1, h2, h3, h4]
  · intro env e h
    have he := herr env e h
    subst he
    refine
      ⟨fun hm => hmem env _ (by unfold validationErrors loadSettings; dsimp only; simp [hm]),
        fun hm => hmem env _ (by unfold validationErrors loadSettings; dsimp only; simp [hm]),
        fun hm => hmem env _ (by unfold validationErrors loadSettings; dsimp only; simp [hm]),
        fun hm => hmem env _ (by unfold validationErrors loadSettings; dsimp only; simp [hm])⟩
  · intro env h1 h2 h3 h4
    refine ⟨loadSettings env, ?_, rfl, rfl, rfl, rfl, ?_, ?_, ?_, ?_, ?_, ?_, rfl, rfl⟩
    · unfold mkSettings validationErrors loadSettings
      dsimp only
      simp [h1, h2, h3, h4]
    all_goals intro hv
    · show getenvD env "WAPI_VERSION" "v2.13.1" = "v2.13.1"
      unfold getenvD
      rw [hv]
      rfl
    · show pyUpper (getenvD env "LOG_LEVEL" "INFO") = "INFO"
      unfold getenvD
      rw [hv]
      rfl
    · show getenvD env "LOG_FILE" "ddi-assistant.log" = "ddi-assistant.log"
      unfold getenvD
      rw [hv]
      rfl
    · show decide (pyLower (getenvD env "INFOBLOX_VERIFY_SSL" "true") = "true") = true
      unfold getenvD
      rw [hv]
      rfl
    · show decide (pyLower (getenvD env "ENABLE_SECURITY_AUDIT" "true") = "true") = true
      unfold getenvD
      rw [hv]
      rfl
    · show getenvD env "RAG_COLLECTION_NAME" "infoblox_knowledge" = "infoblox_knowledge"
      unfold getenvD
      rw [hv]
      rfl

/-- Witness for C7: an empty environment misses all four variables, whose
lines then occur in the raised message; a fully-set environment
constructs settings with the default WAPI version. -/
theorem settings_requires_env_vars_witness :
    (∃ e, mkSettings (fun _ => none) = .error e ∧
      List.IsInfix "INFOBLOX_HOST environment variable is required".data e.data ∧
      List.IsInfix "ANTHROPIC_API_KEY environment variable is required".data e.data) ∧
    (∃ s, mkSettings
        (fun k => if k = "INFOBLOX_HOST" then some "gm.example.com"
          else if k = "INFOBLOX_USER" then some "admin"
          else if k = "INFOBLOX_PASSWORD" then some "pw"
          else if k = "ANTHROPIC_API_KEY" then some "key"
          else none) = .ok s ∧
      s.wapi_version = "v2.13.1") := by
  constructor
  · obtain ⟨e, he⟩ : ∃ e, mkSettings (fun _ => none) = .error e :=
      (settings_requires_env_vars.1 (fun _ => none)).mpr (Or.inl rfl)
    obtain ⟨i1, _, _, i4⟩ := settings_requires_env_vars.2.1 (fun _ => none) e he
    exact ⟨e, he, i1 rfl, i4 rfl⟩
  · obtain ⟨s, hs, _, _, _, _, hw, _⟩ :=
      settings_requires_env_vars.2.2
        (fun k => if k = "INFOBLOX_HOST" then some "gm.example.com"
          else if k = "INFOBLOX_USER" then some "admin"
          else if k = "INFOBLOX_PASSWORD" then some "pw"
          else if k = "ANTHROPIC_API_KEY" then some "key"
          else none) rfl rfl rfl rfl
    exact ⟨s, hs, hw rfl⟩

/-- Literal search finds exactly the contiguous infixes. -/
theorem subSearch_iff (pat : List Char) (l : List Char) :
    subSearch pat l = true ↔ pat <:+: l := by
  induction l with
  | nil =>
    simp [subSearch, List.infix_nil, List.isEmpty_iff]
  | cons a rest ih =>
    simp only [subSearch, Bool.or_eq_true, ih, List.isPrefixOf_iff_prefix]
    rw [List.infix_cons_iff]

/-- Characterization of the scanner for `\s*=`. -/
theorem scanSpacesEq_iff (l : List Char) :
    scanSpacesEq l = true ↔
      ∃ sp rest, l = sp ++ '=' :: rest ∧ ∀ c ∈ sp, pySpaceChar c = true := by
  induction l with
  | nil =>
    simp only [scanSpacesEq, Bool.false_eq_true, false_iff]
    rintro ⟨sp, rest, heq, -⟩
    exact List.noConfusion (List.append_eq_nil.mp heq.symm).2
  | cons c rest ih =>
    by_cases hc : c = '='
    · subst hc
      constructor
      · intro _
        exact ⟨[], rest, rfl, by simp⟩
      · intro _
        simp [scanSpacesEq]
    · rw [show scanSpacesEq (c :: rest) = (pySpaceChar c && scanSpacesEq rest) from by
        simp [scanSpacesEq, hc]]
      simp only [Bool.and_eq_true, ih]
      constructor
      · rintro ⟨hspace, sp, r, rfl, hall⟩
        exact ⟨c :: sp, r, rfl, by
          intro d hd
          rcases List.mem_cons.mp hd with rfl | hd'
          · exact hspace
          · exact hall d hd'⟩
      · rintro ⟨sp, r, heq, hall⟩
        cases sp with
        | nil => exact absurd (List.head_eq_of_cons_eq heq) hc
        | cons d sp' =>
          obtain ⟨rfl, htl⟩ : c = d ∧ rest = sp' ++ '=' :: r :=
            ⟨List.head_eq_of_cons_eq heq, List.tail_eq_of_cons_eq heq⟩
          exact ⟨hall c (List.mem_cons_self _ _), sp', r, htl,
            fun d' hd' => hall d' (List.mem_cons_of_mem _ hd')⟩

/-- Characterization of the scanner for `\w*\s*=`. -/
theorem scanWordsSpacesEq_iff (l : List Char) :
    scanWordsSpacesEq l = true ↔
      ∃ w sp rest, l = w ++ sp ++ '=' :: rest ∧
        (∀ c ∈ w, pyWordChar c = true) ∧ ∀ c ∈ sp, pySpaceChar c = true := by
  induction l with
  | nil =>
    simp only [scanWordsSpacesEq, Bool.false_eq_true, false_iff]
    rintro ⟨w, sp, rest, heq, -⟩
    rcases List.append_eq_nil.mp heq.symm with ⟨h1, h2⟩
    exact List.noConfusion h2
  | cons c rest ih =>
    by_cases hc : c = '='
    · subst hc
      constructor
      · intro _
        exact ⟨[], [], rest, rfl, by simp, by simp⟩
      · intro _
        simp [scanWordsSpacesEq]
    · by_cases hw : pyWordChar c = true
      · rw [show scanWordsSpacesEq (c :: rest) = scanWordsSpacesEq rest from by
          simp [scanWordsSpacesEq, hc, hw]]
        rw [ih]
        constructor
        · rintro ⟨w, sp, r, rfl, hallw, halls⟩
          exact ⟨c :: w, sp, r, rfl, by
            intro d hd
            rcases List.mem_cons.mp hd with rfl | hd'
            · exact hw
            · exact hallw d hd', halls⟩
        · rintro ⟨w, sp, r, heq, hallw, halls⟩
          cases w with
          | nil =>
            cases sp with
            | nil => exact absurd (List.head_eq_of_cons_eq heq) hc
            | cons d sp' =>
              obtain ⟨rfl, htl⟩ : c = d ∧ rest = sp' ++ '=' :: r :=
                ⟨List.head_eq_of_cons_eq heq, List.tail_eq_of_cons_eq heq⟩
              refine ⟨[], sp', r, htl, by simp,
                fun d' hd' => halls d' (List.mem_cons_of_mem _ hd')⟩
          | cons d w' =>
            obtain ⟨rfl, htl⟩ : c = d ∧ rest = w' ++ sp ++ '=' :: r :=
              ⟨List.head_eq_of_cons_eq heq, by
                have := List.tail_eq_of_cons_eq heq
                simpa using this⟩
            exact ⟨w', sp, r, htl,
              fun d' hd' => hallw d' (List.mem_cons_of_mem _ hd'), halls⟩
      · rw [show scanWordsSpacesEq (c :: rest) = (pySpaceChar c && scanSpacesEq rest) from by
          simp [scanWordsSpacesEq, hc, hw]]
        simp only [Bool.and_eq_true, scanSpacesEq_iff]
        constructor
        · rintro ⟨hspace, sp, r, rfl, halls⟩
          exact ⟨[], c :: sp, r, rfl, by simp, by
            intro d hd
            rcases List.mem_cons.mp hd with rfl | hd'
            · exact hspace
            · exact halls d hd'⟩
        · rintro ⟨w, sp, r, heq, hallw, halls⟩
          cases w with
          | cons d w' =>
            exact absurd (List.head_eq_of_cons_eq heq ▸
              hallw d (List.mem_cons_self _ _)) hw
          | nil =>
            cases sp with
            | nil => exact absurd (List.head_eq_of_cons_eq heq) hc
            | cons d sp' =>
              obtain ⟨rfl, htl⟩ : c = d ∧ rest = sp' ++ '=' :: r :=
                ⟨List.head_eq_of_cons_eq heq, by
                  have := List.tail_eq_of_cons_eq heq
                  simpa using this⟩
              exact ⟨halls c (List.mem_cons_self _ _), sp', r, htl,
                fun d' hd' => halls d' (List.mem_cons_of_mem _ hd')⟩

/-- Characterization of an anchored `on\w+\s*=` match. -/
theorem matchOnAt_iff (l : List Char) :
    matchOnAt l = true ↔
      ∃ (o n : Char) (w sp rest : List Char),
        l = o :: n :: (w ++ (sp ++ '=' :: rest)) ∧
        o.toLower = 'o' ∧ n.toLower = 'n' ∧ w ≠ [] ∧
        (∀ c ∈ w, pyWordChar c = true) ∧ (∀ c ∈ sp, pySpaceChar c = true) := by
  cases l with
  | nil =>
    simp only [matchOnAt, Bool.false_eq_true, false_iff]
    rintro ⟨o, n, w, sp, rest, heq, -, -, -, -, -⟩
    exact List.noConfusion heq
  | cons o t =>
    cases t with
    | nil =>
      simp only [matchOnAt, Bool.false_eq_true, false_iff]
      rintro ⟨o', n, w, sp, rest, heq, -, -, -, -, -⟩
      exact List.noConfusion (List.tail_eq_of_cons_eq heq)
    | cons n t' =>
      cases t' with
      | nil =>
        simp only [matchOnAt, Bool.false_eq_true, false_iff]
        rintro ⟨o', n', w, sp, rest, heq, -, -, -, -, -⟩
        have h2 := List.tail_eq_of_cons_eq (List.tail_eq_of_cons_eq heq)
        rcases w with _ | ⟨d, w'⟩
        · rcases sp with _ | ⟨d, sp'⟩
          · exact List.noConfusion h2
          · exact List.noConfusion h2
        · exact List.noConfusion h2
      | cons c rest' =>
        simp only [matchOnAt, Bool.and_eq_true, beq_iff_eq, scanWordsSpacesEq_iff]
        constructor
        · rintro ⟨⟨⟨ho, hn⟩, hc⟩, w', sp, r, rfl, hallw, halls⟩
          refine ⟨o, n, c :: w', sp, r, by simp, ho, hn, by simp, ?_, halls⟩
          intro d hd
          rcases List.mem_cons.mp hd with rfl | hd'
          · exact hc
          · exact hallw d hd'
        · rintro ⟨o', n', w, sp, r, heq, ho, hn, hw, hallw, halls⟩
          obtain rfl := List.head_eq_of_cons_eq heq
          have h2 := List.tail_eq_of_cons_eq heq
          obtain rfl := List.head_eq_of_cons_eq h2
          have h3 := List.tail_eq_of_cons_eq h2
          cases w with
          | nil => exact absurd rfl hw
          | cons d w' =>
            obtain rfl : c = d := List.head_eq_of_cons_eq h3
            have h4 : rest' = w' ++ (sp ++ '=' :: r) := by
              have := List.tail_eq_of_cons_eq h3
              simpa using this
            refine ⟨⟨⟨ho, hn⟩, hallw c (List.mem_cons_self _ _)⟩, w', sp, r, ?_, ?_, halls⟩
            · simpa using h4
            · exact fun d' hd' => hallw d' (List.mem_cons_of_mem _ hd')

/-- Unanchored search succeeds iff some suffix position matches. -/
theorem searchOnHandler_iff (l : List Char) :
    searchOnHandler l = true ↔
      ∃ pre suf, l = pre ++ suf ∧ matchOnAt suf = true := by
  induction l with
  | nil =>
    simp only [searchOnHandler, Bool.false_eq_true, false_iff]
    rintro ⟨pre, suf, heq, hm⟩
    obtain ⟨rfl, rfl⟩ := List.append_eq_nil.mp heq.symm
    simp [matchOnAt] at hm
  | cons a rest ih =>
    simp only [searchOnHandler, Bool.or_eq_true, ih]
    constructor
    · rintro (hm | ⟨pre, suf, rfl, hm⟩)
      · exact ⟨[], a :: rest, rfl, hm⟩
      · exact ⟨a :: pre, suf, rfl, hm⟩
    · rintro ⟨pre, suf, heq, hm⟩
      cases pre with
      | nil =>
        left
        rw [List.nil_append] at heq
        exact heq ▸ hm
      | cons b pre' =>
        right
        obtain rfl := List.head_eq_of_cons_eq heq
        exact ⟨pre', suf, List.tail_eq_of_cons_eq heq, hm⟩

/-- The claim's `on<word>=` predicate agrees with the source's scanner. -/
theorem specOnHandler_iff_search (s : String) :
    SpecOnHandler s ↔ searchOnHandler s.data = true := by
  rw [searchOnHandler_iff]
  constructor
  · rintro ⟨pre, o, n, w, sp, rest, heq, ho, hn, hw, hallw, halls⟩
    exact ⟨pre, o :: n :: (w ++ (sp ++ '=' :: rest)), heq,
      (matchOnAt_iff _).mpr ⟨o, n, w, sp, rest, rfl, ho, hn, hw, hallw, halls⟩⟩
  · rintro ⟨pre, suf, heq, hm⟩
    obtain ⟨o, n, w, sp, rest, rfl, ho, hn, hw, hallw, halls⟩ := (matchOnAt_iff _).mp hm
    exact ⟨pre, o, n, w, sp, rest, heq, ho, hn, hw, hallw, halls⟩

/-- The source's regex battery matches exactly the claim's forbidden
patterns. -/
theorem hasForbiddenPattern_iff (s : String) :
    hasForbiddenPattern s = true ↔ SpecForbidden s := by
  unfold hasForbiddenPattern SpecForbidden subSearchCI
  simp only [Bool.or_eq_true, subSearch_iff, List.any_eq_true, or_assoc]
  refine or_congr ?_ (or_congr Iff.rfl (or_congr Iff.rfl (or_congr Iff.rfl ?_)))
  · refine exists_congr fun c => and_congr_right fun _ => ?_
    simp [shellMetaChar, specMetaChars, or_assoc]
  · exact (specOnHandler_iff_search s).symm

/-- A list of filter values fails validation exactly when one of its
items does. -/
theorem validateFilterList_error_iff (items : List Value) :
    (∃ e, validateFilterList items = .error e) ↔
      ∃ v ∈ items, ∃ e, validateFilterValue v = .error e := by
  induction items with
  | nil => simp [validateFilterList]
  | cons v rest ih =>
    unfold validateFilterList
    cases hv : validateFilterValue v with
    | error e =>
      simp only [List.mem_cons]
      exact ⟨fun _ => ⟨v, Or.inl rfl, e, hv⟩, fun _ => ⟨e, rfl⟩⟩
    | ok v' =>
      cases hr : validateFilterList rest with
      | error e =>
        simp only [List.mem_cons]
        constructor
        · intro _
          obtain ⟨u, hu, e', he'⟩ := ih.mp ⟨e, hr⟩
          exact ⟨u, Or.inr hu, e', he'⟩
        · exact fun _ => ⟨e, rfl⟩
      | ok rest' =>
        simp only [List.mem_cons]
        constructor
        · rintro ⟨e, he⟩
          exact Except.noConfusion he
        · rintro ⟨u, hu | hu, e', he'⟩
          · rw [hu] at he'
            rw [he'] at hv
            exact Except.noConfusion hv
          · obtain ⟨e, he⟩ := ih.mpr ⟨u, hu, e', he'⟩
            rw [he] at hr
            exact Except.noConfusion hr

/-- A dict of filter values fails validation exactly when one of its
values does. -/
theorem validateFilterEntries_error_iff (entries : List (String × Value)) :
    (∃ e, validateFilterEntries entries = .error e) ↔
      ∃ kv ∈ entries, ∃ e, validateFilterValue kv.2 = .error e := by
  induction entries with
  | nil => simp [validateFilterEntries]
  | cons kv rest ih =>
    obtain ⟨k, v⟩ := kv
    unfold validateFilterEntries
    cases hv : validateFilterValue v with
    | error e =>
      simp only [List.mem_cons]
      exact ⟨fun _ => ⟨(k, v), Or.inl rfl, e, hv⟩, fun _ => ⟨e, rfl⟩⟩
    | ok v' =>
      cases hr : validateFilterEntries rest with
      | error e =>
        simp only [List.mem_cons]
        constructor
        · intro _
          obtain ⟨u, hu, e', he'⟩ := ih.mp ⟨e, hr⟩
          exact ⟨u, Or.inr hu, e', he'⟩
        · exact fun _ => ⟨e, rfl⟩
      | ok rest' =>
        simp only [List.mem_cons]
        constructor
        · rintro ⟨e, he⟩
          exact Except.noConfusion he
        · rintro ⟨u, hu | hu, e', he'⟩
          · rw [hu] at he'
            dsimp only at he'
            rw [he'] at hv
            exact Except.noConfusion hv
          · obtain ⟨e, he⟩ := ih.mpr ⟨u, hu, e', he'⟩
            rw [he] at hr
            exact Except.noConfusion hr

/-- C5: `validate_filter_value` rejects exactly the strings containing a
forbidden pattern (case-insensitively: a shell metacharacter, the
traversal sequence `../..`, `<script`, `javascript:`, or an
`on<word>=` handler) or longer than 1000 characters, and returns clean
strings unchanged; ints, floats, bools and `None` pass through; lists,
tuples and dicts are validated structurally (an error in any item or
dict value propagates); every other type raises. -/
theorem validate_filter_value_characterization :
    (∀ s : String,
      (validateFilterValue (.str s) = .ok (.str s) ↔
        ¬ SpecForbidden s ∧ s.length ≤ 1000) ∧
      ((∃ e, validateFilterValue (.str s) = .error e) ↔
        SpecForbidden s ∨ s.length > 1000)) ∧
    (∀ n : Int, validateFilterValue (.int n) = .ok (.int n)) ∧
    (∀ q : Rat, validateFilterValue (.float q) = .ok (.float q)) ∧
    (∀ b : Bool, validateFilterValue (.bool b) = .ok (.bool b)) ∧
    validateFilterValue .null = .ok .null ∧
    (∀ t, ∃ e, validateFilterValue (.other t) = .error e) ∧
    (∀ items, validateFilterValue (.list items) =
      (validateFilterList items).map Value.list) ∧
    (∀ items, validateFilterValue (.tup items) =
      (validateFilterList items).map Value.tup) ∧
    (∀ entries, validateFilterValue (.dict entries) =
      (validateFilterEntries entries).map Value.dict) ∧
    (∀ items, (∃ e, validateFilterValue (.list items) = .error e) ↔
      ∃ v ∈ items, ∃ e, validateFilterValue v = .error e) ∧
    (∀ entries, (∃ e, validateFilterValue (.dict entries) = .error e) ↔
      ∃ kv ∈ entries, ∃ e, validateFilterValue kv.2 = .error e) := by
  refine ⟨?_, fun n => rfl, fun q => rfl, fun b => rfl, rfl,
    fun t => ⟨_, rfl⟩, ?_, ?_, ?_, ?_, ?_⟩
  · intro s
    have hiff := hasForbiddenPattern_iff s
    by_cases hf : hasForbiddenPattern s = true
    · have hspec : SpecForbidden s := hiff.mp hf
      constructor
      · simp [validateFilterValue, hf, hspec]
      · simp [validateFilterValue, hf, hspec]
    · have hspec : ¬ SpecForbidden s := fun hs => hf (hiff.mpr hs)
      by_cases hl : s.length > 1000
      · constructor
        · simp only [validateFilterValue, if_neg hf, if_pos hl]
          simp [hl]
        · simp only [validateFilterValue, if_neg hf, if_pos hl]
          simp [hl]
      · constructor
        · simp only [validateFilterValue, if_neg hf, if_neg hl]
          simp only [true_iff]
          exact ⟨hspec, by omega⟩
        · simp only [validateFilterValue, if_neg hf, if_neg hl]
          simp [hspec, hl]
  · intro items
    cases h : validateFilterList items <;> simp [validateFilterValue, h, Except.map]
  · intro items
    cases h : validateFilterList items <;> simp [validateFilterValue, h, Except.map]
  · intro entries
    cases h : validateFilterEntries entries <;>
      simp [validateFilterValue, h, Except.map]
  · intro items
    rw [← validateFilterList_error_iff]
    cases h : validateFilterList items <;> simp [validateFilterValue, h]
  · intro entries
    rw [← validateFilterEntries_error_iff]
    cases h : validateFilterEntries entries <;> simp [validateFilterValue, h]

/-- Key-sorting is idempotent. -/
theorem sortKV_idem (l : List (String × Value)) : sortKV (sortKV l) = sortKV l := by
  haveI : IsTotal (String × Value) (fun p q => p.1 ≤ q.1) :=
    ⟨fun a b => le_total a.1 b.1⟩
  haveI : IsTrans (String × Value) (fun p q => p.1 ≤ q.1) :=
    ⟨fun a b c h1 h2 => le_trans h1 h2⟩
  exact List.Sorted.insertionSort_eq (List.sorted_insertionSort _ l)

/-- Inserting commutes with a key-preserving map of the values. -/
theorem orderedInsert_map_values (f : Value → Value) (p : String × Value)
    (l : List (String × Value)) :
    List.orderedInsert (fun a b => a.1 ≤ b.1) (p.1, f p.2)
        (l.map fun kv => (kv.1, f kv.2))
      = (List.orderedInsert (fun a b => a.1 ≤ b.1) p l).map
          fun kv => (kv.1, f kv.2) := by
  induction l with
  | nil => rfl
  | cons q t ih =>
    simp only [List.map_cons, List.orderedInsert]
    by_cases h : p.1 ≤ q.1
    · rw [if_pos h, if_pos h]
      simp only [List.map_cons]
    · rw [if_neg h, if_neg h]
      rw [List.map_cons, ih]

/-- Key-sorting commutes with a key-preserving map of the values. -/
theorem sortKV_map_values (f : Value → Value) (l : List (String × Value)) :
    sortKV (l.map fun kv => (kv.1, f kv.2))
      = (sortKV l).map fun kv => (kv.1, f kv.2) := by
  induction l with
  | nil => rfl
  | cons p t ih =>
    simp only [sortKV, List.insertionSort, List.map_cons] at *
    rw [ih]
    exact orderedInsert_map_values f p _

/-- Entry normalization is a key-preserving map of the values. -/
theorem normalizeEntries_eq_map (l : List (String × Value)) :
    normalizeEntries l = l.map fun kv => (kv.1, normalizeVal kv.2) := by
  induction l with
  | nil => rfl
  | cons kv t ih =>
    obtain ⟨k, v⟩ := kv
    simp [normalizeEntries, ih]

/-- Item normalization is a map. -/
theorem normalizeList_eq_map (l : List Value) :
    normalizeList l = l.map normalizeVal := by
  induction l with
  | nil => rfl
  | cons v t ih => simp [normalizeList, ih]

/-- Serialization of items only depends on itemwise serialization. -/
theorem dumpsList_congr {l : List Value} {f : Value → Value}
    (h : ∀ v ∈ l, dumpsVal (f v) = dumpsVal v) :
    dumpsList (l.map f) = dumpsList l := by
  induction l with
  | nil => rfl
  | cons v t ih =>
    simp only [List.map_cons, dumpsList]
    rw [h v (List.mem_cons_self _ _), ih fun u hu => h u (List.mem_cons_of_mem _ hu)]

/-- Serialization of entries only depends on valuewise serialization. -/
theorem dumpsEntries_congr {l : List (String × Value)} {f : Value → Value}
    (h : ∀ kv ∈ l, dumpsVal (f kv.2) = dumpsVal kv.2) :
    dumpsEntries (l.map fun kv => (kv.1, f kv.2)) = dumpsEntries l := by
  induction l with
  | nil => rfl
  | cons kv t ih =>
    obtain ⟨k, v⟩ := kv
    simp only [List.map_cons, dumpsEntries]
    rw [show dumpsVal (f v) = dumpsVal v from h (k, v) (List.mem_cons_self _ _),
      ih fun u hu => h u (List.mem_cons_of_mem _ hu)]

/-- The serializer is invariant under key-order normalization: sorting the
dict entries up front does not change `json.dumps(..., sort_keys=True)`. -/
theorem dumpsVal_normalize (v : Value) : dumpsVal (normalizeVal v) = dumpsVal v := by
  cases v with
  | str s => rfl
  | int n => rfl
  | float q => rfl
  | bool b => rfl
  | null => rfl
  | other t => rfl
  | list items =>
    have hcong : dumpsList (items.map normalizeVal) = dumpsList items :=
      dumpsList_congr fun u hu => dumpsVal_normalize u
    show dumpsVal (.list (normalizeList items)) = dumpsVal (.list items)
    rw [normalizeList_eq_map]
    simp only [dumpsVal]
    rw [hcong]
  | tup items =>
    have hcong : dumpsList (items.map normalizeVal) = dumpsList items :=
      dumpsList_congr fun u hu => dumpsVal_normalize u
    show dumpsVal (.tup (normalizeList items)) = dumpsVal (.tup items)
    rw [normalizeList_eq_map]
    simp only [dumpsVal]
    rw [hcong]
  | dict entries =>
    have hcong : dumpsEntries ((sortKV entries).map fun kv => (kv.1, normalizeVal kv.2))
        = dumpsEntries (sortKV entries) :=
      dumpsEntries_congr fun kv hkv => dumpsVal_normalize kv.2
    show dumpsVal (.dict (sortKV (normalizeEntries entries))) = dumpsVal (.dict entries)
    rw [normalizeEntries_eq_map, sortKV_map_values]
    simp only [dumpsVal]
    rw [sortKV_map_values, sortKV_idem, hcong]
termination_by sizeOf v
decreasing_by
  · simp_wf
    have := List.sizeOf_lt_sizeOf_of_mem hu
    omega
  · simp_wf
    have := List.sizeOf_lt_sizeOf_of_mem hu
    omega
  · simp_wf
    have h1 : kv ∈ entries := ((sortKV_perm entries).mem_iff).mp hkv
    have h2 := List.sizeOf_lt_sizeOf_of_mem h1
    obtain ⟨k, v2⟩ := kv
    simp only [Prod.mk.sizeOf_spec] at h2
    simp only []
    omega

/-- Hex digits are not whitespace. -/
theorem pySpaceChar_hexDigitChar (n : Nat) (h : n < 16) :
    pySpaceChar (hexDigitChar n) = false := by
  interval_cases n <;> decide

/-- A hex digest contains no whitespace. -/
theorem toHexString_no_space (bytes : List Nat) :
    ∀ c ∈ (toHexString bytes).data, pySpaceChar c = false := by
  intro c hc
  unfold toHexString at hc
  simp only [List.mem_flatten, List.mem_map] at hc
  obtain ⟨l, ⟨b, hb, rfl⟩, hcl⟩ := hc
  simp only [List.mem_cons, List.not_mem_nil, or_false] at hcl
  rcases hcl with rfl | rfl <;>
    exact pySpaceChar_hexDigitChar _ (Nat.mod_lt _ (by norm_num))

/-- Python `strip()` leaves a whitespace-free string unchanged. -/
theorem pyStrip_eq_self {s : String} (h : ∀ c ∈ s.data, pySpaceChar c = false) :
    pyStrip s = s := by
  unfold pyStrip
  have h1 : s.data.dropWhile pySpaceChar = s.data := by
    cases hd : s.data with
    | nil => rfl
    | cons a t =>
      rw [List.dropWhile_cons]
      rw [h a (hd ▸ List.mem_cons_self _ _)]
      simp
  rw [h1]
  have h2 : s.data.reverse.dropWhile pySpaceChar = s.data.reverse := by
    cases hd : s.data.reverse with
    | nil => rfl
    | cons a t =>
      rw [List.dropWhile_cons]
      rw [h a (List.mem_reverse.mp (hd ▸ List.mem_cons_self _ _))]
      simp
  rw [h2, List.reverse_reverse]

/-- C8: `get_schema_hash` is deterministic — schema dicts equal as JSON
values (equal after recursive key-sorting) yield the same SHA-256
digest — and `has_schema_changed` returns `False` exactly when the
hash file exists and its stripped content equals the digest of the
given schemas, leaving the file untouched; whenever it returns `True`
it writes the new digest, so an immediately repeated call with the
same schemas returns `False`. -/
theorem schema_hash_cache :
    (∀ s1 s2 : List (String × Value),
      normalizeVal (.dict s1) = normalizeVal (.dict s2) →
        getSchemaHash s1 = getSchemaHash s2) ∧
    (∀ (schemas : List (String × Value)) (file : Option String),
      (hasSchemaChanged schemas file).1 = false ↔
        ∃ c, file = some c ∧ pyStrip c = getSchemaHash schemas) ∧
    (∀ (schemas : List (String × Value)) (file : Option String),
      (hasSchemaChanged schemas file).1 = false →
        (hasSchemaChanged schemas file).2 = file) ∧
    (∀ (schemas : List (String × Value)) (file : Option String),
      (hasSchemaChanged schemas file).1 = true →
        (hasSchemaChanged schemas (hasSchemaChanged schemas file).2).1 = false) := by
  have hstrip : ∀ schemas : List (String × Value),
      pyStrip (getSchemaHash schemas) = getSchemaHash schemas := by
    intro schemas
    exact pyStrip_eq_self (toHexString_no_space _)
  refine ⟨?_, ?_, ?_, ?_⟩
  · intro s1 s2 h
    unfold getSchemaHash
    suffices hd : dumpsVal (.dict s1) = dumpsVal (.dict s2) by rw [hd]
    calc dumpsVal (.dict s1) = dumpsVal (normalizeVal (.dict s1)) :=
          (dumpsVal_normalize _).symm
      _ = dumpsVal (normalizeVal (.dict s2)) := by rw [h]
      _ = dumpsVal (.dict s2) := dumpsVal_normalize _
  · intro schemas file
    cases file with
    | none => simp [hasSchemaChanged]
    | some c =>
      unfold hasSchemaChanged
      by_cases h : pyStrip c = getSchemaHash schemas
      · simp [h]
      · simp [h]
  · intro schemas file h
    cases file with
    | none => simp [hasSchemaChanged] at h
    | some c =>
      unfold hasSchemaChanged at h ⊢
      by_cases hc : pyStrip c = getSchemaHash schemas
      · simp [hc]
      · simp [hc] at h
  · intro schemas file h
    cases file with
    | none =>
      show (hasSchemaChanged schemas (some (getSchemaHash schemas))).1 = false
      unfold hasSchemaChanged
      simp [hstrip schemas]
    | some c =>
      unfold hasSchemaChanged at h ⊢
      by_cases hc : pyStrip c = getSchemaHash schemas
      · simp [hc] at h
      · simp [hc, hstrip schemas]

/-- Witness for C8: two key-permuted two-entry schema dicts hash equal; a
missing hash file makes the first check report a change and the
repeated check a cache hit. -/
theorem schema_hash_cache_witness :
    getSchemaHash [("a", Value.int 1), ("b", Value.int 2)]
      = getSchemaHash [("b", Value.int 2), ("a", Value.int 1)] ∧
    (hasSchemaChanged [("a", Value.int 1)] none).1 = true ∧
    (hasSchemaChanged [("a", Value.int 1)]
      ((hasSchemaChanged [("a", Value.int 1)] none).2)).1 = false := by
  refine ⟨schema_hash_cache.1 _ _ (by
    simp [normalizeVal, normalizeEntries, normalizeList, sortKV,
      List.insertionSort, List.orderedInsert]
    rw [if_pos (by decide), if_neg (by decide)]), rfl, ?_⟩
  exact schema_hash_cache.2.2.2 [("a", Value.int 1)] none rfl

end InfoBlox
